import Mathlib

/-!
dfire: the fire effect of `cmd/fire/main.go`

A shallow embedding of the simulation and rendering core of the program
(`rand.next`, `fireEffect`, `applyFuncToBufferedPixel`, `applyPalette`,
`NewPalette`, `updateEffectOpacity`, `Buffer.SetLineColor` and the input
reactions), followed by theorems about it.

Conventions of the embedding:

* Go `int` is modelled by `Int` (no claim below depends on 64-bit overflow);
  `uint32` and `uint8` are modelled by `Nat` with explicit reduction modulo
  `2^32` and `256` where the Go operation can overflow.
* A Go slice is a `List`; an index out of range is a runtime panic in Go and
  is `none` here (`sliceGet`, `sliceSet`).
* The package-level variables of the program are the fields of `State`; a
  function that mutates them takes and returns a `State`.
* A key press (`inpututil.IsKeyJustPressed`) is a `Bool` argument.
-/

namespace Fire

/-! ## Slices -/

/-- Go `s[i]` as a read: `none` is the index-out-of-range panic. -/
def sliceGet {α : Type} (s : List α) (i : Int) : Option α :=
  if 0 ≤ i then s[i.toNat]? else none

/-- Go `s[i] = v`: `none` is the index-out-of-range panic. -/
def sliceSet {α : Type} (s : List α) (i : Int) (v : α) : Option (List α) :=
  if 0 ≤ i ∧ i.toNat < s.length then some (s.set i.toNat v) else none

/-- Go `uint8(v)` for an `int` (and the wrap-around of `uint8` arithmetic). -/
def u8 (v : Int) : Nat := (v % 256).toNat

/-! ## `type rand struct { x, y, z, w uint32 }` -/

/-- The xorshift state: four `uint32` words. -/
structure rand where
  x : Nat
  y : Nat
  z : Nat
  w : Nat
deriving DecidableEq

/-- Every word of the state is a `uint32`. -/
def rand.wf (r : rand) : Prop :=
  r.x < 2 ^ 32 ∧ r.y < 2 ^ 32 ∧ r.z < 2 ^ 32 ∧ r.w < 2 ^ 32

instance (r : rand) : Decidable r.wf := by
  unfold rand.wf
  exact inferInstance

/-- Method `func (r *rand) next() uint32`: the returned word and the new state. -/
def rand.next (r : rand) : Nat × rand :=
  let t := r.x ^^^ ((r.x <<< 11) % 2 ^ 32)
  let w := (r.w ^^^ (r.w >>> 19)) ^^^ (t ^^^ (t >>> 8))
  (w, { x := r.y, y := r.z, z := r.w, w := w })

/-- Initial generator, `var theRand = &rand{12345678, 4185243, 776511, 45411}`. -/
def theRand : rand := { x := 12345678, y := 4185243, z := 776511, w := 45411 }

/-- The generator after `n` calls of `theRand.next()`. -/
def theRandAfter : Nat → rand
  | 0 => theRand
  | n + 1 => (theRandAfter n).next.2

/-- The value returned by call number `n` (from 0) of `theRand.next()`. -/
def theRandOutput (n : Nat) : Nat := (theRandAfter n).next.1

/-- The xorshift recurrence as the specification words it, with the shifts
written as arithmetic on 32-bit words: `t = x XOR (x << 11)`, then
`(w XOR (w >> 19)) XOR (t XOR (t >> 8))`. -/
def xorshiftSpec (x w : Nat) : Nat :=
  let t := x ^^^ (x * 2 ^ 11 % 2 ^ 32)
  (w ^^^ (w / 2 ^ 19)) ^^^ (t ^^^ (t / 2 ^ 8))

/-- The word sequence of the specification from the fixed seed: the four seed
words, then each word from the words four and one places before it. -/
def seedWord : Nat → Nat
  | 0 => 12345678
  | 1 => 4185243
  | 2 => 776511
  | 3 => 45411
  | n + 4 => xorshiftSpec (seedWord n) (seedWord (n + 3))

/-! ## Colours, buffer and program state -/

/-- Type `color.RGBA`: four `uint8` channels. -/
structure RGBA where
  R : Nat
  G : Nat
  B : Nat
  A : Nat
deriving DecidableEq

/-- Type `Buffer`: `screenWidth`, `screenHeight` and the slice `Buffer`,
named `cells` here since a field cannot carry the name of its structure. -/
structure Buffer where
  screenWidth : Int
  screenHeight : Int
  cells : List Int
deriving DecidableEq

/-- The package-level variables read or written by the core. `frame` is
`frame.Pix`. -/
structure State where
  screenWidth : Int
  screenHeight : Int
  frame : List Nat
  colorPalette : List RGBA
  pixelBuffer : Buffer
  effectEnable : Bool
  paletteName : String
  oWindDirection : Int
  oWindPower : Int
  oEffectOpacity : Nat
  oBackgroundOpacity : Nat
  oFireIntensity : Int
  theRand : rand
deriving DecidableEq

/-- Outcome of a Go function returning `(value, error)`: the value with a
`nil` error, a non-`nil` error, or a runtime panic. -/
inductive Result (α : Type) where
  | ok : α → Result α
  | error : String → Result α
  | panic : Result α
deriving DecidableEq

/-! ## Buffer -/

/-- Function `NewBuffer`: `make([]int, w*h, w*h)` panics on a negative length. -/
def NewBuffer (screenWidth screenHeight : Int) : Option Buffer :=
  if 0 ≤ screenWidth * screenHeight then
    some { screenWidth := screenWidth, screenHeight := screenHeight,
           cells := List.replicate (screenWidth * screenHeight).toNat 0 }
  else none

/-- Method `func (b *Buffer) SetLineColor(y, colorRef int)`: the loop
`for x := 0; x < b.screenWidth; x++ { b.Buffer[lineStart+x] = colorRef }`. -/
def Buffer.SetLineColor (b : Buffer) (y colorRef : Int) : Option Buffer :=
  let lineStart := y * b.screenWidth
  (List.range b.screenWidth.toNat).foldlM
    (fun (b : Buffer) (x : Nat) =>
      (sliceSet b.cells (lineStart + (x : Int)) colorRef).map
        (fun cells => { b with cells := cells }))
    b

/-! ## Palette -/

/-- The map `colorPalettes`; a missing key yields the `nil` slice. -/
def colorPalettes (name : String) : List Int :=
  if name = "fire" then
    [0x00, 0x00, 0x00, 0x1F, 0x07, 0x07, 0x2F, 0x0F, 0x07, 0x47, 0x0F, 0x07,
     0x57, 0x17, 0x07, 0x67, 0x1F, 0x07, 0x77, 0x1F, 0x07, 0x8F, 0x27, 0x07,
     0x9F, 0x2F, 0x07, 0xAF, 0x3F, 0x07, 0xBF, 0x47, 0x07, 0xC7, 0x47, 0x07,
     0xDF, 0x4F, 0x07, 0xDF, 0x57, 0x07, 0xDF, 0x57, 0x07, 0xD7, 0x5F, 0x07,
     0xD7, 0x5F, 0x07, 0xD7, 0x67, 0x0F, 0xCF, 0x6F, 0x0F, 0xCF, 0x77, 0x0F,
     0xCF, 0x7F, 0x0F, 0xCF, 0x87, 0x17, 0xC7, 0x87, 0x17, 0xC7, 0x8F, 0x17,
     0xC7, 0x97, 0x1F, 0xBF, 0x9F, 0x1F, 0xBF, 0x9F, 0x1F, 0xBF, 0xA7, 0x27,
     0xBF, 0xA7, 0x27, 0xBF, 0xAF, 0x2F, 0xB7, 0xAF, 0x2F, 0xB7, 0xB7, 0x2F,
     0xB7, 0xB7, 0x37, 0xCF, 0xCF, 0x6F, 0xDF, 0xDF, 0x9F, 0xEF, 0xEF, 0xC7,
     0xFF, 0xFF, 0xFF]
  else if name = "blue" then
    [0x00, 0x00, 0x00, 0x00, 0x1b, 0x33, 0x00, 0x27, 0x52, 0x00, 0x31, 0x68,
     0x00, 0x3a, 0x7d, 0x00, 0x43, 0x92, 0x00, 0x50, 0xaf, 0x00, 0x5a, 0xc4,
     0x00, 0x65, 0xd8, 0x00, 0x6f, 0xec, 0x00, 0x73, 0xf6, 0x00, 0x81, 0xff,
     0x00, 0x81, 0xff, 0x00, 0x81, 0xff, 0x00, 0x83, 0xff, 0x00, 0x83, 0xff,
     0x3b, 0x80, 0xff, 0x54, 0x82, 0xff, 0x70, 0x80, 0xff, 0x82, 0x81, 0xff,
     0x92, 0x83, 0xff, 0x9f, 0x85, 0xff, 0xa3, 0x81, 0xf9, 0xbf, 0x86, 0xfb,
     0xd1, 0x83, 0xf5, 0xdd, 0x87, 0xf6, 0xdd, 0x87, 0xf6, 0xe9, 0x8a, 0xf6,
     0xe9, 0x8a, 0xf6, 0xe9, 0x8a, 0xf6, 0xeb, 0x86, 0xee, 0xf9, 0x88, 0xf2,
     0xf7, 0x8a, 0xef, 0xff, 0xad, 0xf9, 0xff, 0xc8, 0xfa, 0xff, 0xe0, 0xff]
  else []

/-- One iteration of the loop of `NewPalette`:
`p[i] = color.RGBA{uint8(rgbs[i*3+0]), uint8(rgbs[i*3+1]), uint8(rgbs[i*3+2]), oEffectOpacity}`. -/
def NewPalette.step (rgbs : List Int) (oEffectOpacity : Nat) (p : List RGBA) (i : Nat) :
    Option (List RGBA) := do
  let r ← sliceGet rgbs ((i : Int) * 3 + 0)
  let g ← sliceGet rgbs ((i : Int) * 3 + 1)
  let b ← sliceGet rgbs ((i : Int) * 3 + 2)
  sliceSet p (i : Int) { R := u8 r, G := u8 g, B := u8 b, A := oEffectOpacity }

/-- Go `p[0].A = a`. -/
def setAlpha0 (p : List RGBA) (a : Nat) : Option (List RGBA) := do
  let c ← sliceGet p 0
  sliceSet p 0 { c with A := a }

/-- Function `NewPalette(rgbs []int, oEffectOpacity, oBackgroundOpacity uint8)`. -/
def NewPalette (rgbs : List Int) (oEffectOpacity oBackgroundOpacity : Nat) :
    Result (List RGBA) :=
  if 0 ≠ rgbs.length % 3 then
    Result.error "incorrect number of color values : must be a mulitple of 3"
  else
    let l := rgbs.length / 3
    let p : List RGBA := List.replicate l { R := 0, G := 0, B := 0, A := 0 }
    match (List.range l).foldlM (NewPalette.step rgbs oEffectOpacity) p with
    | none => Result.panic
    | some p =>
      match setAlpha0 p oBackgroundOpacity with
      | none => Result.panic
      | some p => Result.ok p

/-- Function `updateEffectOpacity`: the loop
`for i := 1; i < len(palette); i++ { palette[0].A = opacity }`. -/
def updateEffectOpacity (palette : List RGBA) (opacity : Nat) : Option (List RGBA) :=
  (List.range' 1 (palette.length - 1)).foldlM
    (fun (p : List RGBA) (_ : Nat) => setAlpha0 p opacity)
    palette

/-- Body of the loop of `applyPalette` for cell `k` holding `v`. -/
def applyPalette.step (colorPalette : List RGBA) (frame : List Nat) (k : Nat) (v : Int) :
    Option (List Nat) := do
  let v := if v ≥ (colorPalette.length : Int) then (colorPalette.length : Int) - 1 else v
  let c ← sliceGet colorPalette v
  let frame ← sliceSet frame (4 * (k : Int)) c.R
  let frame ← sliceSet frame (4 * (k : Int) + 1) c.G
  let frame ← sliceSet frame (4 * (k : Int) + 2) c.B
  sliceSet frame (4 * (k : Int) + 3) c.A

/-- The loop `for k, v := range buffer` of `applyPalette`, from index `k` on. -/
def applyPalette.loop (colorPalette : List RGBA) :
    Nat → List Int → List Nat → Option (List Nat)
  | _, [], frame => some frame
  | k, v :: rest, frame =>
    match applyPalette.step colorPalette frame k v with
    | none => none
    | some frame => applyPalette.loop colorPalette (k + 1) rest frame

/-- Function `applyPalette(frame, buffer, colorPalette)`, on `frame.Pix`. -/
def applyPalette (frame : List Nat) (buffer : List Int) (colorPalette : List RGBA) :
    Option (List Nat) :=
  applyPalette.loop colorPalette 0 buffer frame

/-! ## The fire effect -/

/-- The horizontal offset `x` of `fireEffect` from the wind jitter `randWind`. -/
def fireEffect.dx (s : State) (randWind : Int) : Int :=
  let x := randWind + s.oWindPower * s.oWindDirection
  if x = 0 then 1 else x

/-- The index `z - screenWidth` that `fireEffect(p)` writes to, from the
wind jitter `randWind`. -/
def fireEffect.target (s : State) (p randWind : Int) : Int :=
  let z := p - fireEffect.dx s randWind + 1
  let z := if z < s.screenWidth then s.screenWidth else z
  z - s.screenWidth

/-- Function `fireEffect(p int)`. -/
def fireEffect (s : State) (p : Int) : Option State :=
  let d1 := s.theRand.next
  let y : Int := ((d1.1 &&& 1 : Nat) : Int)
  let d2 := d1.2.next
  let randWind : Int := ((d2.1 &&& 3 : Nat) : Int)
  let t := fireEffect.target s p randWind
  let buf := s.pixelBuffer.cells
  do
    let cur ← sliceGet buf p
    if cur - 1 > 0 then
      let buf ← sliceSet buf t (cur - y)
      some { s with theRand := d2.2, pixelBuffer := { s.pixelBuffer with cells := buf } }
    else
      let v ← sliceGet buf 0
      let buf ← sliceSet buf t v
      some { s with theRand := d2.2, pixelBuffer := { s.pixelBuffer with cells := buf } }

/-- Function `applyFuncToBufferedPixel(effect)`: the loops
`for x := 0; x < screenWidth; x++ { for y := 1; y < screenHeight; y++ {
p := y*screenWidth + x; effect(p) } }`. The effect the program passes,
`fireEffect`, leaves the screen dimensions alone, so the loop bounds are
those of the start state. -/
def applyFuncToBufferedPixel (effect : State → Int → Option State) (s : State) :
    Option State :=
  (List.range s.screenWidth.toNat).foldlM
    (fun (st : State) (x : Nat) =>
      (List.range' 1 (s.screenHeight.toNat - 1)).foldlM
        (fun (st : State) (y : Nat) => effect st ((y : Int) * s.screenWidth + (x : Int)))
        st)
    s

/-- The order of the calls as the specification words it: the source indices
`p = y*width + x`, column by column (`x` from 0 to `width - 1`), and inside a
column row by row (`y` from 1 to `height - 1`). -/
def pixelOrder (screenWidth screenHeight : Int) : List Int :=
  (List.range screenWidth.toNat).flatMap (fun (x : Nat) =>
    (List.range' 1 (screenHeight.toNat - 1)).map
      (fun (y : Nat) => (y : Int) * screenWidth + (x : Int)))

/-! ## Concrete states used as test inputs -/

/-- The program state after `main` for a `w` by `h` screen whose palette is
`pal`, before the bottom row is seeded: the declared initial values of the
package-level variables (`oWindDirection = 1`, both opacities `0xFF`, the
rest zero) and a zeroed buffer. -/
def startState (w h : Int) (pal : List RGBA) : State :=
  { screenWidth := w, screenHeight := h,
    frame := List.replicate (4 * (w * h).toNat) 0,
    colorPalette := pal,
    pixelBuffer := { screenWidth := w, screenHeight := h,
                     cells := List.replicate (w * h).toNat 0 },
    effectEnable := false, paletteName := "fire",
    oWindDirection := 1, oWindPower := 0,
    oEffectOpacity := 0xFF, oBackgroundOpacity := 0xFF,
    oFireIntensity := 0, theRand := theRand }

/-- The three-entry palette `[{0,0,0,255},{128,0,0,200},{255,0,0,200}]`. -/
def palette3 : List RGBA :=
  [{ R := 0, G := 0, B := 0, A := 255 }, { R := 128, G := 0, B := 0, A := 200 },
   { R := 255, G := 0, B := 0, A := 200 }]

/-- A 4 by 4 screen with the three-entry palette and the bottom row at 2. -/
def scenarioA : State :=
  { startState 4 4 palette3 with
    pixelBuffer := { screenWidth := 4, screenHeight := 4,
                     cells := [0, 0, 0, 0, 0, 0, 0, 0, 0, 0, 0, 0, 2, 2, 2, 2] } }

/-- A 1 by 2 screen with wind power 6 blowing in direction -1. -/
def narrowState : State :=
  { startState 1 2 palette3 with oWindPower := 6, oWindDirection := -1 }

/-- A zeroed 3 by 2 buffer, as `NewBuffer(3, 2)` returns it. -/
def buffer32 : Buffer :=
  { screenWidth := 3, screenHeight := 2, cells := [0, 0, 0, 0, 0, 0] }

/-- The 4 by 4 scenario with the fire intensity offset at 1, which for the
three-entry palette is both the least and the greatest value of `[1, L-2]`. -/
def offsetState : State := { scenarioA with oFireIntensity := 1 }

/-- The 4 by 4 scenario with the background opacity at 0. -/
def transparentState : State := { scenarioA with oBackgroundOpacity := 0 }

/-- The 4 by 4 scenario with wind power 2 blowing in direction -1. -/
def headwindState : State := { scenarioA with oWindPower := 2, oWindDirection := -1 }

/-! ## Input reactions -/

/-- Function `inputToggleEffect`; `pressed` is the disjunction of its three triggers. -/
def inputToggleEffect (pressed : Bool) (s : State) : Option State :=
  if pressed then
    let effectEnable := !s.effectEnable
    let bottomLinePaletteRef : Int :=
      if effectEnable then (s.colorPalette.length : Int) - 1 else 0
    (s.pixelBuffer.SetLineColor (s.screenHeight - 1) bottomLinePaletteRef).map
      (fun b => { s with effectEnable := effectEnable, pixelBuffer := b })
  else some s

/-- Function `inputSwitchColorPalette`; the error of `NewPalette` is dropped
(`colorPalette, _ = ...`), which leaves the `nil` palette. -/
def inputSwitchColorPalette (keyP : Bool) (s : State) : Option State :=
  if keyP then
    let paletteName := if s.paletteName = "fire" then "blue" else "fire"
    match NewPalette (colorPalettes paletteName) s.oEffectOpacity s.oBackgroundOpacity with
    | Result.ok p => some { s with paletteName := paletteName, colorPalette := p }
    | Result.error _ => some { s with paletteName := paletteName, colorPalette := [] }
    | Result.panic => none
  else some s

/-- The `KeyPageUp` branch of `inputBgOpacity`. -/
def inputBgOpacity.up (s : State) : Option State :=
  let maxValue : Nat := 0xFF
  let o := if maxValue > u8 ((s.oBackgroundOpacity : Int) + 0x01)
    then u8 ((s.oBackgroundOpacity : Int) + 0x5) else s.oBackgroundOpacity
  (updateEffectOpacity s.colorPalette o).map
    (fun p => { s with oBackgroundOpacity := o, colorPalette := p })

/-- The `KeyPageDown` branch of `inputBgOpacity`. -/
def inputBgOpacity.down (s : State) : Option State :=
  let minValue : Nat := 0x00
  let o := if minValue < u8 ((s.oBackgroundOpacity : Int) - 0x01)
    then u8 ((s.oBackgroundOpacity : Int) - 0x5) else s.oBackgroundOpacity
  (updateEffectOpacity s.colorPalette o).map
    (fun p => { s with oBackgroundOpacity := o, colorPalette := p })

/-- Function `inputBgOpacity`. -/
def inputBgOpacity (keyPageUp keyPageDown : Bool) (s : State) : Option State := do
  let s ← if keyPageUp then inputBgOpacity.up s else some s
  if keyPageDown then inputBgOpacity.down s else some s

/-- The `KeyDown` branch of `inputEffectPower`. -/
def inputEffectPower.down (s : State) : Option State :=
  let maxValue : Int := (s.colorPalette.length : Int) - 2
  if s.oFireIntensity ≤ maxValue then
    let o := s.oFireIntensity + 1
    (s.pixelBuffer.SetLineColor (s.screenHeight - 1) ((s.colorPalette.length : Int) - o)).map
      (fun b => { s with oFireIntensity := o, pixelBuffer := b })
  else some s

/-- The `KeyUp` branch of `inputEffectPower`. -/
def inputEffectPower.up (s : State) : Option State :=
  let minValue : Int := 1
  if s.oFireIntensity ≥ minValue then
    let o := s.oFireIntensity - 1
    (s.pixelBuffer.SetLineColor (s.screenHeight - 1) ((s.colorPalette.length : Int) - o)).map
      (fun b => { s with oFireIntensity := o, pixelBuffer := b })
  else some s

/-- Function `inputEffectPower`. -/
def inputEffectPower (keyDown keyUp : Bool) (s : State) : Option State := do
  let s ← if keyDown then inputEffectPower.down s else some s
  if keyUp then inputEffectPower.up s else some s

/-- Function `inputWindPower`. -/
def inputWindPower (keyLeft keyRight keyD : Bool) (s : State) : State :=
  let minValue : Int := 0
  let maxValue : Int := 6
  let s := if keyLeft && decide (s.oWindPower > minValue)
    then { s with oWindPower := s.oWindPower - 1 } else s
  let s := if keyRight && decide (s.oWindPower < maxValue)
    then { s with oWindPower := s.oWindPower + 1 } else s
  if keyD then { s with oWindDirection := s.oWindDirection * -1 } else s

/-! ## Slice lemmas -/

theorem sliceGet_eq_getElem? {α : Type} (s : List α) (i : Int) (h : 0 ≤ i) :
    sliceGet s i = s[i.toNat]? := by
  simp [sliceGet, h]

theorem sliceGet_natCast {α : Type} (s : List α) (n : Nat) :
    sliceGet s (n : Int) = s[n]? := by
  simp [sliceGet]

theorem sliceGet_isSome {α : Type} (s : List α) (i : Int) (h0 : 0 ≤ i)
    (h1 : i < (s.length : Int)) : ∃ v, sliceGet s i = some v := by
  have h2 : i.toNat < s.length := by omega
  exact ⟨s[i.toNat], by simp [sliceGet, h0, List.getElem?_eq_getElem h2]⟩

theorem sliceSet_eq_some {α : Type} (s : List α) (i : Int) (v : α) (h0 : 0 ≤ i)
    (h1 : i < (s.length : Int)) : sliceSet s i v = some (s.set i.toNat v) := by
  have h2 : i.toNat < s.length := by omega
  simp [sliceSet, h0, h2]

theorem sliceSet_natCast {α : Type} (s : List α) (n : Nat) (v : α) (h : n < s.length) :
    sliceSet s (n : Int) v = some (s.set n v) := by
  simp [sliceSet, h]

theorem sliceGet_set_same {α : Type} (s : List α) (i : Int) (v : α) (h0 : 0 ≤ i)
    (h1 : i < (s.length : Int)) : sliceGet (s.set i.toNat v) i = some v := by
  have h2 : i.toNat < s.length := by omega
  simp [sliceGet, h0, h2]

theorem sliceGet_set_other {α : Type} (s : List α) (i k : Int) (v : α) (h0 : 0 ≤ i)
    (hk : k ≠ i) : sliceGet (s.set i.toNat v) k = sliceGet s k := by
  unfold sliceGet
  by_cases hk0 : 0 ≤ k
  · have hne : i.toNat ≠ k.toNat := by omega
    simp [hk0, List.getElem?_set_ne hne]
  · simp [hk0]

/-! ## `rand.next` -/

theorem rand_next_eq (r : rand) :
    r.next = (xorshiftSpec r.x r.w,
      { x := r.y, y := r.z, z := r.w, w := xorshiftSpec r.x r.w }) := by
  simp only [rand.next, xorshiftSpec, Nat.shiftLeft_eq, Nat.shiftRight_eq_div_pow]

theorem xorshiftSpec_lt (x w : Nat) (hx : x < 2 ^ 32) (hw : w < 2 ^ 32) :
    xorshiftSpec x w < 2 ^ 32 := by
  have hd : ∀ a k : Nat, a < 2 ^ 32 → a / 2 ^ k < 2 ^ 32 := fun a k ha =>
    lt_of_le_of_lt (Nat.div_le_self a (2 ^ k)) ha
  have ht : x ^^^ (x * 2 ^ 11 % 2 ^ 32) < 2 ^ 32 :=
    Nat.xor_lt_two_pow hx (Nat.mod_lt _ (by norm_num))
  exact Nat.xor_lt_two_pow (Nat.xor_lt_two_pow hw (hd w 19 hw))
    (Nat.xor_lt_two_pow ht (hd _ 8 ht))

theorem theRandAfter_eq (n : Nat) :
    theRandAfter n
      = { x := seedWord n, y := seedWord (n + 1), z := seedWord (n + 2),
          w := seedWord (n + 3) } := by
  induction n with
  | zero => rfl
  | succ n ih =>
    rw [theRandAfter, ih, rand_next_eq]
    simp only [seedWord]

/-- C6. For every state `(x, y, z, w)` of 32-bit words, `rand.next()` returns
`w' = (w XOR (w >> 19)) XOR (t XOR (t >> 8))` with `t = x XOR (x << 11)`
(shifts on 32-bit words), `w'` is again a 32-bit word and the state becomes
`(y, z, w, w')`; and call number `n` on the fixed seed returns word `n + 4` of
the sequence that the recurrence determines from the four seed words. -/
theorem rand_next_xorshift (r : rand) (h : r.wf) (n : Nat) :
    (r.next.1 = (r.w ^^^ (r.w / 2 ^ 19))
        ^^^ ((r.x ^^^ (r.x * 2 ^ 11 % 2 ^ 32)) ^^^ ((r.x ^^^ (r.x * 2 ^ 11 % 2 ^ 32)) / 2 ^ 8))) ∧
    r.next.2 = { x := r.y, y := r.z, z := r.w, w := r.next.1 } ∧
    r.next.1 < 2 ^ 32 ∧ r.next.2.wf ∧
    theRandAfter n = { x := seedWord n, y := seedWord (n + 1), z := seedWord (n + 2),
                       w := seedWord (n + 3) } ∧
    theRandOutput n = seedWord (n + 4) := by
  obtain ⟨hx, hy, hz, hw⟩ := h
  have hlt := xorshiftSpec_lt r.x r.w hx hw
  refine ⟨?_, ?_, ?_, ?_, theRandAfter_eq n, ?_⟩
  · rw [rand_next_eq]; rfl
  · rw [rand_next_eq]
  · rw [rand_next_eq]; exact hlt
  · rw [rand_next_eq]; exact ⟨hy, hz, hw, hlt⟩
  · rw [theRandOutput, theRandAfter_eq, rand_next_eq]
    simp only [seedWord]

/-- Witness of C6 at the seed: the first call returns 3814004284, which is
word 4 of the sequence. -/
theorem rand_next_xorshift_witness :
    theRand.wf ∧ theRand.next.1 = 3814004284 ∧ theRandOutput 0 = seedWord 4 :=
  ⟨by decide,
   ((rand_next_xorshift theRand (by decide) 0).1).trans (by decide),
   (rand_next_xorshift theRand (by decide) 0).2.2.2.2.2⟩

/-! ## `fireEffect` -/

theorem fireEffect_target_nonneg (s : State) (p j : Int) : 0 ≤ fireEffect.target s p j := by
  simp only [fireEffect.target]
  split <;> omega

/-- The result of `fireEffect` when the source and the target are in bounds. -/
theorem fireEffect_eval (s : State) (p cur b0 : Int)
    (hcur : sliceGet s.pixelBuffer.cells p = some cur)
    (hb0 : sliceGet s.pixelBuffer.cells 0 = some b0)
    (hin : fireEffect.target s p ((s.theRand.next.2.next.1 &&& 3 : Nat) : Int)
      < (s.pixelBuffer.cells.length : Int)) :
    fireEffect s p = some { s with
      theRand := s.theRand.next.2.next.2,
      pixelBuffer := { s.pixelBuffer with
        cells := s.pixelBuffer.cells.set
          (fireEffect.target s p ((s.theRand.next.2.next.1 &&& 3 : Nat) : Int)).toNat
          (if 2 ≤ cur then cur - ((s.theRand.next.1 &&& 1 : Nat) : Int) else b0) } } := by
  have h0 := fireEffect_target_nonneg s p ((s.theRand.next.2.next.1 &&& 3 : Nat) : Int)
  unfold fireEffect
  simp only [hcur, Option.bind_eq_bind, Option.some_bind]
  by_cases hc : 2 ≤ cur
  · have hc1 : cur - 1 > 0 := by omega
    simp [hc, hc1, sliceSet_eq_some _ _ _ h0 hin]
  · have hc1 : ¬ cur - 1 > 0 := by omega
    simp [hc, hc1, hb0, sliceSet_eq_some _ _ _ h0 hin]

/-- C2, counterexample. On a 1 by 2 screen with wind power 6 and direction -1,
the source index `p = 1` satisfies every premise of the claim, yet the index
`dst - width` is not below `width*height` and `fireEffect(1)` panics. -/
theorem fireEffect_target_out_of_bounds :
    (1 ≤ narrowState.screenWidth ∧ 1 ≤ narrowState.screenHeight) ∧
    (narrowState.screenWidth ≤ 1 ∧ 1 < narrowState.screenWidth * narrowState.screenHeight) ∧
    (0 ≤ narrowState.oWindPower ∧ narrowState.oWindPower ≤ 6) ∧
    narrowState.oWindDirection = -1 ∧
    (narrowState.pixelBuffer.cells.length : Int)
      = narrowState.screenWidth * narrowState.screenHeight ∧
    ¬ (fireEffect.target narrowState 1
        ((narrowState.theRand.next.2.next.1 &&& 3 : Nat) : Int)
        < narrowState.screenWidth * narrowState.screenHeight) ∧
    fireEffect narrowState 1 = none := by
  decide

/-- C2, amended. For every width >= 1 and height >= 1, every source index `p`
with `width <= p < width*height`, every wind power in `[0,6]`, every wind
direction in `{+1,-1}` and every generator state, provided the direction is +1
or the wind power is below the width (so always when `width >= 7`), the index
`dst - width` written by `fireEffect(p)` is in `[0, width*height)`, and on a
buffer of `width*height` cells the call reads and writes inside the buffer. -/
theorem fireEffect_target_in_bounds (s : State) (p : Int)
    (hw : 1 ≤ s.screenWidth) (_hh : 1 ≤ s.screenHeight)
    (hp : s.screenWidth ≤ p ∧ p < s.screenWidth * s.screenHeight)
    (hpow : 0 ≤ s.oWindPower ∧ s.oWindPower ≤ 6)
    (hdir : s.oWindDirection = 1 ∨ s.oWindDirection = -1)
    (hside : s.oWindDirection = 1 ∨ s.oWindPower < s.screenWidth)
    (hlen : (s.pixelBuffer.cells.length : Int) = s.screenWidth * s.screenHeight) :
    0 ≤ fireEffect.target s p ((s.theRand.next.2.next.1 &&& 3 : Nat) : Int) ∧
    fireEffect.target s p ((s.theRand.next.2.next.1 &&& 3 : Nat) : Int)
      < s.screenWidth * s.screenHeight ∧
    ∃ s', fireEffect s p = some s' := by
  have hj : ((s.theRand.next.2.next.1 &&& 3 : Nat) : Int) ≤ 3 := by
    have := @Nat.and_le_right s.theRand.next.2.next.1 3
    omega
  have hj0 : 0 ≤ ((s.theRand.next.2.next.1 &&& 3 : Nat) : Int) := Int.natCast_nonneg _
  have hup : fireEffect.target s p ((s.theRand.next.2.next.1 &&& 3 : Nat) : Int)
      < s.screenWidth * s.screenHeight := by
    generalize ((s.theRand.next.2.next.1 &&& 3 : Nat) : Int) = j at hj hj0
    simp only [fireEffect.target, fireEffect.dx]
    rcases hdir with hd | hd
    · rw [hd, mul_one]
      split <;> split <;> omega
    · have hlt : s.oWindPower < s.screenWidth := by
        rcases hside with h1 | h1
        · omega
        · exact h1
      rw [hd]
      simp only [mul_neg, mul_one]
      split <;> split <;> omega
  refine ⟨fireEffect_target_nonneg s p _, hup, ?_⟩
  obtain ⟨cur, hcur⟩ := sliceGet_isSome s.pixelBuffer.cells p (by omega) (by omega)
  obtain ⟨b0, hb0⟩ := sliceGet_isSome s.pixelBuffer.cells 0 (le_refl 0) (by omega)
  exact ⟨_, fireEffect_eval s p cur b0 hcur hb0 (by omega)⟩

/-- Witness of the amended C2: the 4 by 4 scenario at `p = 12`. -/
theorem fireEffect_target_in_bounds_witness :
    0 ≤ fireEffect.target scenarioA 12 ((scenarioA.theRand.next.2.next.1 &&& 3 : Nat) : Int) ∧
    fireEffect.target scenarioA 12 ((scenarioA.theRand.next.2.next.1 &&& 3 : Nat) : Int)
      < scenarioA.screenWidth * scenarioA.screenHeight ∧
    ∃ s', fireEffect scenarioA 12 = some s' :=
  fireEffect_target_in_bounds scenarioA 12 (by decide) (by decide) (by decide) (by decide)
    (by decide) (by decide) (by decide)

/-! ## `applyPalette` -/

/-- The clamped index of `applyPalette` is a valid palette index. -/
theorem palette_clamp_get (pal : List RGBA) (hpal : pal ≠ []) (v : Int) (hv : 0 ≤ v) :
    ∃ c, sliceGet pal (min v ((pal.length : Int) - 1)) = some c := by
  have hl : 0 < pal.length := List.length_pos.mpr hpal
  exact sliceGet_isSome pal _ (by omega) (by omega)

/-- One iteration of `applyPalette` writes the four channels of the clamped
palette entry at `4k .. 4k+3`. -/
theorem applyPalette_step_eq (pal : List RGBA) (frame : List Nat) (k : Nat) (v : Int)
    (c : RGBA) (hc : sliceGet pal (min v ((pal.length : Int) - 1)) = some c)
    (hlen : 4 * k + 4 ≤ frame.length) :
    applyPalette.step pal frame k v
      = some ((((frame.set (4 * k) c.R).set (4 * k + 1) c.G).set (4 * k + 2) c.B).set
          (4 * k + 3) c.A) := by
  have hidx : (if v ≥ (pal.length : Int) then (pal.length : Int) - 1 else v)
      = min v ((pal.length : Int) - 1) := by
    split <;> omega
  have hset : ∀ (f : List Nat) (i : Int) (n x : Nat), i = (n : Int) → n < f.length →
      sliceSet f i x = some (f.set n x) := by
    intro f i n x hi hn
    rw [hi]
    exact sliceSet_natCast f n x hn
  unfold applyPalette.step
  simp only [hidx, hc, Option.bind_eq_bind, Option.some_bind]
  rw [hset frame _ (4 * k) c.R (by push_cast; ring) (by omega)]
  simp only [Option.some_bind]
  rw [hset _ _ (4 * k + 1) c.G (by push_cast; ring) (by simp only [List.length_set]; omega)]
  simp only [Option.some_bind]
  rw [hset _ _ (4 * k + 2) c.B (by push_cast; ring) (by simp only [List.length_set]; omega)]
  simp only [Option.some_bind]
  rw [hset _ _ (4 * k + 3) c.A (by push_cast; ring) (by simp only [List.length_set]; omega)]

/-- Loop invariant of `applyPalette`, from cell `k` on. -/
theorem applyPalette_loop_spec (pal : List RGBA) (hpal : pal ≠ []) :
    ∀ (rest : List Int) (k : Nat) (frame : List Nat),
      (∀ v ∈ rest, 0 ≤ v) → 4 * (k + rest.length) ≤ frame.length →
      ∃ out, applyPalette.loop pal k rest frame = some out ∧
        out.length = frame.length ∧
        (∀ j, j < 4 * k → out[j]? = frame[j]?) ∧
        (∀ j, 4 * (k + rest.length) ≤ j → out[j]? = frame[j]?) ∧
        (∀ i v, rest[i]? = some v →
          ∃ c, sliceGet pal (min v ((pal.length : Int) - 1)) = some c ∧
            out[4 * (k + i)]? = some c.R ∧ out[4 * (k + i) + 1]? = some c.G ∧
            out[4 * (k + i) + 2]? = some c.B ∧ out[4 * (k + i) + 3]? = some c.A) := by
  intro rest
  induction rest with
  | nil =>
    intro k frame _ _
    exact ⟨frame, rfl, rfl, fun _ _ => rfl, fun _ _ => rfl, fun i v h => by simp at h⟩
  | cons v rest ih =>
    intro k frame hnn hlen
    have hlen2 : 4 * (k + (rest.length + 1)) ≤ frame.length := hlen
    obtain ⟨c, hc⟩ := palette_clamp_get pal hpal v (hnn v (List.mem_cons_self _ _))
    have hstep := applyPalette_step_eq pal frame k v c hc (by omega)
    obtain ⟨out, hout, hl, hlow, hhigh, hmid⟩ :=
      ih (k + 1) ((((frame.set (4 * k) c.R).set (4 * k + 1) c.G).set (4 * k + 2) c.B).set
          (4 * k + 3) c.A) (fun w hw => hnn w (List.mem_cons_of_mem _ hw))
        (by simp only [List.length_set]; omega)
    have hl2 : out.length = frame.length := by
      rw [hl]; simp only [List.length_set]
    refine ⟨out, ?_, hl2, ?_, ?_, ?_⟩
    · simp only [applyPalette.loop, hstep, hout]
    · intro j hj
      rw [hlow j (by omega)]
      simp only [List.getElem?_set]
      repeat (rw [if_neg (by omega)])
    · intro j hj
      have hj2 : 4 * (k + (rest.length + 1)) ≤ j := hj
      rw [hhigh j (by omega)]
      simp only [List.getElem?_set]
      repeat (rw [if_neg (by omega)])
    · intro i w hi
      cases i with
      | zero =>
        simp only [List.getElem?_cons_zero, Option.some.injEq] at hi
        subst hi
        refine ⟨c, hc, ?_, ?_, ?_, ?_⟩
        · rw [hlow _ (by omega)]
          simp [List.getElem?_set]
          omega
        · rw [hlow _ (by omega)]
          simp [List.getElem?_set]
          omega
        · rw [hlow _ (by omega)]
          simp [List.getElem?_set]
          omega
        · rw [hlow _ (by omega)]
          simp [List.getElem?_set]
          omega
      | succ i =>
        simp only [List.getElem?_cons_succ] at hi
        obtain ⟨c2, hc2, h1, h2, h3, h4⟩ := hmid i w hi
        have e : k + (i + 1) = k + 1 + i := by omega
        exact ⟨c2, hc2, by rw [e]; exact h1, by rw [e]; exact h2, by rw [e]; exact h3,
          by rw [e]; exact h4⟩

/-- C3. For every non-empty palette, every buffer of non-negative intensities
and every frame of at least `4*len(buffer)` bytes, `applyPalette` indexes
neither the palette nor the frame out of range (it returns), and afterwards
the four bytes `frame[4k..4k+3]` of every cell `k` are the R, G, B, A channels
of `palette[min(buffer[k], len(palette)-1)]`; a cell whose intensity is at
least the palette length is rendered with the last palette entry. The frame
keeps its length and its bytes past `4*len(buffer)`. -/
theorem applyPalette_spec (frame : List Nat) (buffer : List Int) (colorPalette : List RGBA)
    (hpal : colorPalette ≠ []) (hnn : ∀ v ∈ buffer, 0 ≤ v)
    (hlen : 4 * buffer.length ≤ frame.length) :
    ∃ out, applyPalette frame buffer colorPalette = some out ∧
      out.length = frame.length ∧
      (∀ j, 4 * buffer.length ≤ j → out[j]? = frame[j]?) ∧
      (∀ k v, buffer[k]? = some v →
        ∃ c, sliceGet colorPalette (min v ((colorPalette.length : Int) - 1)) = some c ∧
          ((colorPalette.length : Int) ≤ v → colorPalette.getLast? = some c) ∧
          out[4 * k]? = some c.R ∧ out[4 * k + 1]? = some c.G ∧
          out[4 * k + 2]? = some c.B ∧ out[4 * k + 3]? = some c.A) := by
  obtain ⟨out, hout, hl, -, hhigh, hmid⟩ :=
    applyPalette_loop_spec colorPalette hpal buffer 0 frame hnn (by omega)
  refine ⟨out, hout, hl, fun j hj => hhigh j (by omega), ?_⟩
  intro k v hk
  obtain ⟨c, hc, h1, h2, h3, h4⟩ := hmid k v hk
  simp only [Nat.zero_add] at h1 h2 h3 h4
  refine ⟨c, hc, ?_, h1, h2, h3, h4⟩
  intro hv
  have hl0 : 0 < colorPalette.length := List.length_pos.mpr hpal
  have hm : min v ((colorPalette.length : Int) - 1) = ((colorPalette.length - 1 : Nat) : Int) := by
    omega
  rw [hm, sliceGet_natCast] at hc
  rw [List.getLast?_eq_getElem?]
  exact hc

/-- Witness of C3: a two-entry palette, intensities 5 (above the palette) and
0, and a frame of nine bytes. -/
theorem applyPalette_spec_witness :
    ∃ out, applyPalette [0, 0, 0, 0, 0, 0, 0, 0, 9] [5, 0]
        [{ R := 1, G := 2, B := 3, A := 4 }, { R := 5, G := 6, B := 7, A := 8 }] = some out ∧
      out.length = [0, 0, 0, 0, 0, 0, 0, 0, 9].length ∧
      (∀ j, 4 * [(5 : Int), 0].length ≤ j → out[j]? = [0, 0, 0, 0, 0, 0, 0, 0, 9][j]?) ∧
      (∀ k v, [(5 : Int), 0][k]? = some v →
        ∃ c, sliceGet [{ R := 1, G := 2, B := 3, A := 4 }, { R := 5, G := 6, B := 7, A := 8 }]
            (min v ((([{ R := 1, G := 2, B := 3, A := 4 },
              { R := 5, G := 6, B := 7, A := 8 }] : List RGBA).length : Int) - 1)) = some c ∧
          (((([{ R := 1, G := 2, B := 3, A := 4 },
              { R := 5, G := 6, B := 7, A := 8 }] : List RGBA).length : Int) ≤ v →
            ([{ R := 1, G := 2, B := 3, A := 4 },
              { R := 5, G := 6, B := 7, A := 8 }] : List RGBA).getLast? = some c)) ∧
          out[4 * k]? = some c.R ∧ out[4 * k + 1]? = some c.G ∧
          out[4 * k + 2]? = some c.B ∧ out[4 * k + 3]? = some c.A) :=
  applyPalette_spec [0, 0, 0, 0, 0, 0, 0, 0, 9] [5, 0]
    [{ R := 1, G := 2, B := 3, A := 4 }, { R := 5, G := 6, B := 7, A := 8 }]
    (by decide) (by decide) (by decide)

/-! ## `NewPalette` -/

theorem NewPalette_error_iff (rgbs : List Int) (e b : Nat) :
    (∃ msg, NewPalette rgbs e b = Result.error msg) ↔ rgbs.length % 3 ≠ 0 := by
  unfold NewPalette
  by_cases h : rgbs.length % 3 = 0
  · have h2 : ¬ (0 ≠ rgbs.length % 3) := by omega
    simp only [h2, if_false, h, ne_eq, not_true_eq_false, iff_false, not_exists]
    intro msg
    split
    · simp
    · split <;> simp
  · have h2 : 0 ≠ rgbs.length % 3 := by omega
    simp [h2, h]

/-- One iteration of the loop of `NewPalette` at an index inside the table. -/
theorem NewPalette_step_eq (rgbs : List Int) (e : Nat) (p : List RGBA) (i : Nat)
    (hi : 3 * i + 2 < rgbs.length) (hp : i < p.length) :
    ∃ r g b, rgbs[3 * i]? = some r ∧ rgbs[3 * i + 1]? = some g ∧ rgbs[3 * i + 2]? = some b ∧
      NewPalette.step rgbs e p i
        = some (p.set i { R := u8 r, G := u8 g, B := u8 b, A := e }) := by
  have hget : ∀ (j : Int) (n : Nat), j = (n : Int) → n < rgbs.length →
      sliceGet rgbs j = some (rgbs[n]?.getD 0) ∧ rgbs[n]? = some (rgbs[n]?.getD 0) := by
    intro j n hj hn
    rw [hj, sliceGet_natCast, List.getElem?_eq_getElem hn]
    simp
  obtain ⟨h0, h0'⟩ := hget ((i : Int) * 3 + 0) (3 * i) (by push_cast; ring) (by omega)
  obtain ⟨h1, h1'⟩ := hget ((i : Int) * 3 + 1) (3 * i + 1) (by push_cast; ring) (by omega)
  obtain ⟨h2, h2'⟩ := hget ((i : Int) * 3 + 2) (3 * i + 2) (by push_cast; ring) (by omega)
  refine ⟨_, _, _, h0', h1', h2', ?_⟩
  unfold NewPalette.step
  simp only [h0, h1, h2, Option.bind_eq_bind, Option.some_bind]
  exact sliceSet_natCast p i _ hp

/-- Loop invariant of `NewPalette` after `m` iterations. -/
theorem NewPalette_loop_spec (rgbs : List Int) (e : Nat) (p0 : List RGBA)
    (hlen : rgbs.length = 3 * p0.length) :
    ∀ m, m ≤ p0.length →
      ∃ p, (List.range m).foldlM (NewPalette.step rgbs e) p0 = some p ∧
        p.length = p0.length ∧
        ∀ i, i < m → ∃ r g b, rgbs[3 * i]? = some r ∧ rgbs[3 * i + 1]? = some g ∧
          rgbs[3 * i + 2]? = some b ∧
          p[i]? = some { R := u8 r, G := u8 g, B := u8 b, A := e } := by
  intro m
  induction m with
  | zero =>
    intro _
    exact ⟨p0, rfl, rfl, fun i hi => absurd hi (Nat.not_lt_zero i)⟩
  | succ m ih =>
    intro hm
    obtain ⟨p, hp, hl, hent⟩ := ih (by omega)
    obtain ⟨r, g, b, hr, hg, hb, hstep⟩ :=
      NewPalette_step_eq rgbs e p m (by omega) (by omega)
    refine ⟨p.set m { R := u8 r, G := u8 g, B := u8 b, A := e }, ?_, ?_, ?_⟩
    · rw [List.range_succ, List.foldlM_append, hp]
      simp only [Option.bind_eq_bind, Option.some_bind, List.foldlM_cons, List.foldlM_nil,
        hstep]
      rfl
    · simp only [List.length_set]; exact hl
    · intro i hi
      by_cases him : i = m
      · subst him
        refine ⟨r, g, b, hr, hg, hb, ?_⟩
        rw [List.getElem?_set_self (by omega)]
      · obtain ⟨r2, g2, b2, hr2, hg2, hb2, hpi⟩ := hent i (by omega)
        refine ⟨r2, g2, b2, hr2, hg2, hb2, ?_⟩
        rw [List.getElem?_set_ne (fun h => him h.symm)]
        exact hpi

/-- On a table of `3n` values with `n >= 1`, `NewPalette` returns `n` entries:
entry `i` holds `uint8` of the values `3i`, `3i+1`, `3i+2`, with alpha
`oBackgroundOpacity` for entry 0 and `oEffectOpacity` for the others. -/
theorem NewPalette_ok (rgbs : List Int) (e b n : Nat)
    (hlen : rgbs.length = 3 * n) (hn : 1 ≤ n) :
    ∃ p, NewPalette rgbs e b = Result.ok p ∧ p.length = n ∧
      ∀ i, i < n → ∃ r g bl, rgbs[3 * i]? = some r ∧ rgbs[3 * i + 1]? = some g ∧
        rgbs[3 * i + 2]? = some bl ∧
        p[i]? = some { R := u8 r, G := u8 g, B := u8 bl, A := if i = 0 then b else e } := by
  have hmod : ¬ (0 ≠ rgbs.length % 3) := by omega
  have hdiv : rgbs.length / 3 = n := by omega
  obtain ⟨p, hp, hl, hent⟩ :=
    NewPalette_loop_spec rgbs e (List.replicate n { R := 0, G := 0, B := 0, A := 0 })
      (by simp [hlen]) n (by simp)
  simp only [List.length_replicate] at hl
  obtain ⟨r0, g0, b0, hr0, hg0, hb0, hp0⟩ := hent 0 (by omega)
  have hset : setAlpha0 p b = some (p.set 0 { R := u8 r0, G := u8 g0, B := u8 b0, A := b }) := by
    unfold setAlpha0
    have h0 : sliceGet p 0 = some { R := u8 r0, G := u8 g0, B := u8 b0, A := e } := by
      simpa [sliceGet] using hp0
    simp only [h0, Option.bind_eq_bind, Option.some_bind]
    exact sliceSet_natCast p 0 _ (by omega)
  refine ⟨p.set 0 { R := u8 r0, G := u8 g0, B := u8 b0, A := b }, ?_, ?_, ?_⟩
  · unfold NewPalette
    simp only [hmod, if_false, hdiv, hp, hset]
  · simp only [List.length_set]; exact hl
  · intro i hi
    by_cases hi0 : i = 0
    · subst hi0
      refine ⟨r0, g0, b0, hr0, hg0, hb0, ?_⟩
      rw [List.getElem?_set_self (by omega)]
      simp
    · obtain ⟨r, g, bl, hr, hg, hbl, hpi⟩ := hent i hi
      refine ⟨r, g, bl, hr, hg, hbl, ?_⟩
      rw [List.getElem?_set_ne (fun h => hi0 h.symm), hpi]
      simp [hi0]

/-- C4, the failing input. The empty table has length `3*0`, and `NewPalette`
neither returns an error nor an empty palette on it: the statement
`p[0].A = oBackgroundOpacity` indexes the empty palette and panics. -/
theorem NewPalette_empty_panics (e b : Nat) :
    ([] : List Int).length = 3 * 0 ∧ NewPalette [] e b = Result.panic ∧
    NewPalette [] e b ≠ Result.ok [] ∧ ∀ msg, NewPalette [] e b ≠ Result.error msg := by
  refine ⟨rfl, rfl, ?_, ?_⟩
  · intro h; cases h
  · intro msg h; cases h

/-- C5. For a table of `3n` values in `0..255` with `n >= 1` and any two
opacities, `NewPalette` returns `n` entries with `r = table[3i]`,
`g = table[3i+1]`, `b = table[3i+2]` for every `i < n`; the alpha of entry 0 is
`oBackgroundOpacity` and the alpha of every other entry is `oEffectOpacity`. -/
theorem NewPalette_entries (rgbs : List Int) (oEffectOpacity oBackgroundOpacity n : Nat)
    (hlen : rgbs.length = 3 * n) (hn : 1 ≤ n) (hrange : ∀ v ∈ rgbs, 0 ≤ v ∧ v ≤ 255) :
    ∃ p, NewPalette rgbs oEffectOpacity oBackgroundOpacity = Result.ok p ∧ p.length = n ∧
      ∀ i, i < n → ∃ c, p[i]? = some c ∧
        rgbs[3 * i]? = some (c.R : Int) ∧ rgbs[3 * i + 1]? = some (c.G : Int) ∧
        rgbs[3 * i + 2]? = some (c.B : Int) ∧
        c.A = if i = 0 then oBackgroundOpacity else oEffectOpacity := by
  have hu8 : ∀ (k : Nat) (v : Int), rgbs[k]? = some v → ((u8 v : Nat) : Int) = v := by
    intro k v hk
    obtain ⟨h0, h1⟩ := hrange v (List.getElem?_mem hk)
    unfold u8
    omega
  obtain ⟨p, hp, hl, hent⟩ := NewPalette_ok rgbs oEffectOpacity oBackgroundOpacity n hlen hn
  refine ⟨p, hp, hl, ?_⟩
  intro i hi
  obtain ⟨r, g, bl, hr, hg, hbl, hpi⟩ := hent i hi
  refine ⟨_, hpi, ?_, ?_, ?_, rfl⟩
  · rw [hr, hu8 _ r hr]
  · rw [hg, hu8 _ g hg]
  · rw [hbl, hu8 _ bl hbl]

/-- Witness of C5: the table `[1,2,3,4,5,6]` with opacities 7 and 8. -/
theorem NewPalette_entries_witness :
    ∃ p, NewPalette [1, 2, 3, 4, 5, 6] 7 8 = Result.ok p ∧ p.length = 2 ∧
      ∀ i, i < 2 → ∃ c, p[i]? = some c ∧
        [(1 : Int), 2, 3, 4, 5, 6][3 * i]? = some (c.R : Int) ∧
        [(1 : Int), 2, 3, 4, 5, 6][3 * i + 1]? = some (c.G : Int) ∧
        [(1 : Int), 2, 3, 4, 5, 6][3 * i + 2]? = some (c.B : Int) ∧
        c.A = if i = 0 then 8 else 7 :=
  NewPalette_entries [1, 2, 3, 4, 5, 6] 7 8 2 (by decide) (by decide) (by decide)

/-! ## `Buffer.SetLineColor` -/

theorem NewBuffer_length (w h : Int) (b : Buffer) (hb : NewBuffer w h = some b) :
    b.screenWidth = w ∧ b.screenHeight = h ∧
    (b.cells.length : Int) = b.screenWidth * b.screenHeight ∧ ∀ v ∈ b.cells, v = 0 := by
  unfold NewBuffer at hb
  split at hb
  · rename_i hnn
    simp only [Option.some.injEq] at hb
    subst hb
    refine ⟨rfl, rfl, ?_, ?_⟩
    · simp only [List.length_replicate]
      omega
    · intro v hv
      exact List.eq_of_mem_replicate hv
  · cases hb

/-- Loop invariant of `SetLineColor` after `m` iterations: the cells
`lineStart .. lineStart+m-1` hold `colorRef`, the others are untouched. -/
theorem SetLineColor_loop_spec (b : Buffer) (lineStart colorRef : Int)
    (h0 : 0 ≤ lineStart) :
    ∀ m : Nat, lineStart + (m : Int) ≤ (b.cells.length : Int) →
      ∃ cells,
        (List.range m).foldlM
          (fun (b : Buffer) (x : Nat) =>
            (sliceSet b.cells (lineStart + (x : Int)) colorRef).map
              (fun cells => { b with cells := cells })) b
          = some { b with cells := cells } ∧
        cells.length = b.cells.length ∧
        ∀ i : Int, sliceGet cells i
          = if lineStart ≤ i ∧ i < lineStart + (m : Int) then some colorRef
            else sliceGet b.cells i := by
  intro m
  induction m with
  | zero =>
    intro _
    refine ⟨b.cells, rfl, rfl, ?_⟩
    intro i
    have : ¬ (lineStart ≤ i ∧ i < lineStart + ((0 : Nat) : Int)) := by omega
    rw [if_neg this]
  | succ m ih =>
    intro hm
    obtain ⟨cells, hfold, hl, hcells⟩ := ih (by omega)
    have hin : lineStart + (m : Int) < (cells.length : Int) := by omega
    have h0m : 0 ≤ lineStart + (m : Int) := by omega
    refine ⟨cells.set (lineStart + (m : Int)).toNat colorRef, ?_, ?_, ?_⟩
    · rw [List.range_succ, List.foldlM_append, hfold]
      simp only [Option.bind_eq_bind, Option.some_bind, List.foldlM_cons, List.foldlM_nil,
        sliceSet_eq_some cells _ colorRef h0m hin, Option.map_some']
      rfl
    · simp only [List.length_set]; exact hl
    · intro i
      by_cases him : i = lineStart + (m : Int)
      · subst him
        rw [sliceGet_set_same cells _ colorRef h0m hin]
        rw [if_pos (by omega)]
      · rw [sliceGet_set_other cells _ i colorRef h0m him, hcells i]
        by_cases hr : lineStart ≤ i ∧ i < lineStart + (m : Int)
        · rw [if_pos hr, if_pos (by omega)]
        · rw [if_neg hr, if_neg (by omega)]

/-- C7. On a buffer of width `w` and height `h` (so `w*h` cells) and a row `y`
with `0 <= y < h`, `SetLineColor(y, v)` returns, keeps the dimensions and the
number of cells, and afterwards every cell of row `y` (indices
`y*w .. y*w+w-1`) equals `v` while every other cell is unchanged. -/
theorem SetLineColor_spec (b : Buffer) (y v : Int)
    (hlen : (b.cells.length : Int) = b.screenWidth * b.screenHeight)
    (hy : 0 ≤ y ∧ y < b.screenHeight) :
    ∃ cells, b.SetLineColor y v = some { b with cells := cells } ∧
      cells.length = b.cells.length ∧
      ∀ i : Int, sliceGet cells i
        = if y * b.screenWidth ≤ i ∧ i < y * b.screenWidth + b.screenWidth then some v
          else sliceGet b.cells i := by
  have hw : 0 ≤ b.screenWidth := by
    by_contra hneg
    have h1 : b.screenWidth * b.screenHeight < 0 :=
      Int.mul_neg_of_neg_of_pos (by omega) (by omega)
    omega
  have hstart : 0 ≤ y * b.screenWidth := Int.mul_nonneg hy.1 hw
  have hend : y * b.screenWidth + b.screenWidth ≤ b.screenWidth * b.screenHeight := by
    have h1 : (y + 1) * b.screenWidth ≤ b.screenHeight * b.screenWidth :=
      Int.mul_le_mul_of_nonneg_right (by omega) hw
    have h2 : (y + 1) * b.screenWidth = y * b.screenWidth + b.screenWidth := by ring
    have h3 : b.screenHeight * b.screenWidth = b.screenWidth * b.screenHeight := by ring
    omega
  have hcast : ((b.screenWidth.toNat : Nat) : Int) = b.screenWidth := Int.toNat_of_nonneg hw
  obtain ⟨cells, hfold, hl, hcells⟩ :=
    SetLineColor_loop_spec b (y * b.screenWidth) v hstart b.screenWidth.toNat
      (by rw [hcast]; omega)
  rw [hcast] at hcells
  exact ⟨cells, hfold, hl, hcells⟩

/-- Witness of C7: row 1 of the zeroed 3 by 2 buffer set to 7. -/
theorem SetLineColor_spec_witness :
    NewBuffer 3 2 = some buffer32 ∧
    ∃ cells, buffer32.SetLineColor 1 7 = some { buffer32 with cells := cells } ∧
      cells.length = buffer32.cells.length ∧
      ∀ i : Int, sliceGet cells i
        = if 1 * buffer32.screenWidth ≤ i ∧ i < 1 * buffer32.screenWidth + buffer32.screenWidth
          then some 7
          else sliceGet buffer32.cells i :=
  ⟨by decide, SetLineColor_spec buffer32 1 7 (by decide) (by decide)⟩

/-! ## `updateEffectOpacity` -/

/-- With at least two entries, `updateEffectOpacity` sets the alpha of entry 0
and nothing else. -/
theorem updateEffectOpacity_of_two_le (c : RGBA) (rest : List RGBA) (opacity : Nat)
    (hrest : rest ≠ []) :
    updateEffectOpacity (c :: rest) opacity = some ({ c with A := opacity } :: rest) := by
  have hstep : ∀ (c2 : RGBA), setAlpha0 (c2 :: rest) opacity
      = some ({ c2 with A := opacity } :: rest) := by
    intro c2
    simp [setAlpha0, sliceGet, sliceSet]
  have hloop : ∀ (l : List Nat) (c2 : RGBA), c2.A = opacity →
      l.foldlM (fun (p : List RGBA) (_ : Nat) => setAlpha0 p opacity) (c2 :: rest)
        = some (c2 :: rest) := by
    intro l
    induction l with
    | nil => intro c2 _; rfl
    | cons x l ih =>
      intro c2 hc2
      have hsame : ({ c2 with A := opacity } : RGBA) = c2 := by
        cases c2; simp_all
      simp only [List.foldlM_cons, hstep, Option.bind_eq_bind, Option.some_bind, hsame]
      exact ih c2 hc2
  obtain ⟨d, rest2, hd⟩ := List.exists_cons_of_ne_nil hrest
  unfold updateEffectOpacity
  have hlen : (c :: rest).length - 1 = rest2.length + 1 := by simp [hd]
  rw [hlen, List.range'_succ]
  simp only [List.foldlM_cons, hstep, Option.bind_eq_bind, Option.some_bind]
  exact hloop _ _ rfl

/-- C8, the failing input. On a palette of exactly one entry the loop
`for i := 1; i < len(palette); i++` of `updateEffectOpacity` runs no
iteration, so the palette comes back with the alpha of entry 0 unchanged:
alpha 4 stays 4 when opacity 9 is requested, whereas with a second entry it
becomes 9. -/
theorem updateEffectOpacity_single_entry :
    (∀ (c : RGBA) (opacity : Nat), updateEffectOpacity [c] opacity = some [c]) ∧
    updateEffectOpacity [{ R := 1, G := 2, B := 3, A := 4 }] 9
      = some [{ R := 1, G := 2, B := 3, A := 4 }] ∧
    updateEffectOpacity [{ R := 1, G := 2, B := 3, A := 4 }, { R := 5, G := 6, B := 7, A := 8 }] 9
      = some [{ R := 1, G := 2, B := 3, A := 9 }, { R := 5, G := 6, B := 7, A := 8 }] :=
  ⟨fun _ _ => rfl, by decide, by decide⟩

/-! ## `inputBgOpacity` -/

/-- C9, the failing input. From the initial opacity `0xFF` the increase
reaction stores 4 (the guard `maxValue > o+1` is evaluated on the wrapped
`o+1 = 0`, then `o+5` wraps), and from 254 it stores 254, not 255; from 0 the
decrease reaction stores 251, and from 1 it stores 1, not 0. -/
theorem inputBgOpacity_wraps :
    scenarioA.oBackgroundOpacity = 0xFF ∧
    (inputBgOpacity true false scenarioA).map (fun s => s.oBackgroundOpacity) = some 4 ∧
    (inputBgOpacity true false { scenarioA with oBackgroundOpacity := 254 }).map
      (fun s => s.oBackgroundOpacity) = some 254 ∧
    transparentState.oBackgroundOpacity = 0 ∧
    (inputBgOpacity false true transparentState).map (fun s => s.oBackgroundOpacity)
      = some 251 ∧
    (inputBgOpacity false true { scenarioA with oBackgroundOpacity := 1 }).map
      (fun s => s.oBackgroundOpacity) = some 1 := by
  decide

/-! ## `inputEffectPower` -/

/-- C10, the failing input. With the three-entry palette (`L = 3`) and the
offset at 1, inside `[1, L-2]`, a decrease-of-fire event (`KeyDown`) leaves
the offset at `2 = L-1`, outside `[1, L-2]`, and seeds the bottom row with
`1`, outside `[2, L-1]`; an increase-of-fire event (`KeyUp`) leaves the offset
at 0 and seeds the bottom row with `3 = L`, which is not a palette index. -/
theorem inputEffectPower_leaves_range :
    (offsetState.colorPalette.length = 3 ∧ offsetState.oFireIntensity = 1) ∧
    (inputEffectPower true false offsetState).map
        (fun s => (s.oFireIntensity, s.pixelBuffer.cells.drop 12))
      = some (2, [1, 1, 1, 1]) ∧
    (inputEffectPower false true offsetState).map
        (fun s => (s.oFireIntensity, s.pixelBuffer.cells.drop 12))
      = some (0, [3, 3, 3, 3]) ∧
    sliceGet offsetState.colorPalette 3 = none := by
  decide

/-! ## `inputWindPower` -/

/-- C14. From a wind power in `[0,6]` and a wind direction in `{+1,-1}`,
`inputWindPower` with any combination of the decrease, increase and
direction-flip events leaves the power in `[0,6]` and the direction in
`{+1,-1}`; a flip negates the direction, no flip keeps it, and two flips
restore it. -/
theorem inputWindPower_spec (s : State) (keyLeft keyRight keyD : Bool)
    (hpow : 0 ≤ s.oWindPower ∧ s.oWindPower ≤ 6)
    (hdir : s.oWindDirection = 1 ∨ s.oWindDirection = -1) :
    (0 ≤ (inputWindPower keyLeft keyRight keyD s).oWindPower ∧
      (inputWindPower keyLeft keyRight keyD s).oWindPower ≤ 6) ∧
    ((inputWindPower keyLeft keyRight keyD s).oWindDirection = 1 ∨
      (inputWindPower keyLeft keyRight keyD s).oWindDirection = -1) ∧
    (inputWindPower keyLeft keyRight keyD s).oWindDirection
      = (if keyD then - s.oWindDirection else s.oWindDirection) ∧
    (inputWindPower false false true (inputWindPower false false true s)).oWindDirection
      = s.oWindDirection := by
  obtain ⟨h0, h6⟩ := hpow
  refine ⟨?_, ?_, ?_, ?_⟩
  · cases keyLeft <;> cases keyRight <;> cases keyD <;>
      simp only [inputWindPower, Bool.false_and, Bool.true_and, Bool.false_eq_true, if_false,
        if_true, decide_eq_true_eq] <;>
      first | omega | (split_ifs <;> (try simp only []) <;> omega)
  · cases keyLeft <;> cases keyRight <;> cases keyD <;>
      simp only [inputWindPower, Bool.false_and, Bool.true_and, Bool.false_eq_true, if_false,
        if_true, decide_eq_true_eq] <;>
      first | omega | (split_ifs <;> (try simp only []) <;> omega)
  · cases keyLeft <;> cases keyRight <;> cases keyD <;>
      simp only [inputWindPower, Bool.false_and, Bool.true_and, Bool.false_eq_true, if_false,
        if_true, decide_eq_true_eq] <;>
      first | omega | (split_ifs <;> (try simp only []) <;> omega)
  · simp only [inputWindPower, Bool.false_and, Bool.false_eq_true, if_false, if_true]
    omega

/-- Witness of C14 on the headwind state (power 2, direction -1) with all
three events in one tick. -/
theorem inputWindPower_spec_witness :
    (0 ≤ (inputWindPower true true true headwindState).oWindPower ∧
      (inputWindPower true true true headwindState).oWindPower ≤ 6) ∧
    ((inputWindPower true true true headwindState).oWindDirection = 1 ∨
      (inputWindPower true true true headwindState).oWindDirection = -1) ∧
    (inputWindPower true true true headwindState).oWindDirection
      = (if true then - headwindState.oWindDirection else headwindState.oWindDirection) ∧
    (inputWindPower false false true (inputWindPower false false true headwindState)).oWindDirection
      = headwindState.oWindDirection :=
  inputWindPower_spec headwindState true true true (by decide) (by decide)

/-! ## `inputSwitchColorPalette` -/

/-- Two palettes built by `NewPalette` from the same table have the same
R, G, B content, whatever the opacities. -/
theorem NewPalette_rgb_eq (rgbs : List Int) (n : Nat) (hlen : rgbs.length = 3 * n)
    (hn : 1 ≤ n) (e b e2 b2 : Nat) :
    ∃ p p2, NewPalette rgbs e b = Result.ok p ∧ NewPalette rgbs e2 b2 = Result.ok p2 ∧
      p.length = n ∧
      p.map (fun c => (c.R, c.G, c.B)) = p2.map (fun c => (c.R, c.G, c.B)) := by
  obtain ⟨p, hp, hl, hent⟩ := NewPalette_ok rgbs e b n hlen hn
  obtain ⟨p2, hp2, hl2, hent2⟩ := NewPalette_ok rgbs e2 b2 n hlen hn
  refine ⟨p, p2, hp, hp2, hl, ?_⟩
  apply List.ext_getElem?
  intro i
  simp only [List.getElem?_map]
  by_cases hi : i < n
  · obtain ⟨r, g, bl, hr, hg, hbl, hpi⟩ := hent i hi
    obtain ⟨r2, g2, bl2, hr2, hg2, hbl2, hpi2⟩ := hent2 i hi
    rw [hr] at hr2
    rw [hg] at hg2
    rw [hbl] at hbl2
    simp only [Option.some.injEq] at hr2 hg2 hbl2
    subst hr2 hg2 hbl2
    rw [hpi, hpi2]
    rfl
  · rw [List.getElem?_eq_none (by omega), List.getElem?_eq_none (by omega)]

/-- C13. The tables "fire" and "blue" have the lengths `3*37` and `3*36`, so
`NewPalette` succeeds on each; and from either palette name two palette-switch
events in succession pass through the other name, restore the original name
and leave a palette whose R, G, B content equals, entry by entry, that of the
palette `NewPalette` builds from the original table with any opacities. -/
theorem inputSwitchColorPalette_twice (s : State) (e b : Nat)
    (hname : s.paletteName = "fire" ∨ s.paletteName = "blue") :
    ((colorPalettes "fire").length = 3 * 37 ∧ (colorPalettes "blue").length = 3 * 36) ∧
    (∃ p, NewPalette (colorPalettes "fire") e b = Result.ok p ∧ p.length = 37) ∧
    (∃ p, NewPalette (colorPalettes "blue") e b = Result.ok p ∧ p.length = 36) ∧
    ∃ s1 s2 p0,
      inputSwitchColorPalette true s = some s1 ∧
      inputSwitchColorPalette true s1 = some s2 ∧
      s1.paletteName ≠ s.paletteName ∧ s2.paletteName = s.paletteName ∧
      NewPalette (colorPalettes s.paletteName) e b = Result.ok p0 ∧
      s2.colorPalette.map (fun c => (c.R, c.G, c.B))
        = p0.map (fun c => (c.R, c.G, c.B)) := by
  have hfire : (colorPalettes "fire").length = 3 * 37 := by decide
  have hblue : (colorPalettes "blue").length = 3 * 36 := by decide
  obtain ⟨pf, hpf, hlf, -⟩ := NewPalette_ok (colorPalettes "fire") e b 37 hfire (by omega)
  obtain ⟨pb, hpb, hlb, -⟩ := NewPalette_ok (colorPalettes "blue") e b 36 hblue (by omega)
  refine ⟨⟨hfire, hblue⟩, ⟨pf, hpf, hlf⟩, ⟨pb, hpb, hlb⟩, ?_⟩
  obtain ⟨qb, hqb, -, -⟩ :=
    NewPalette_ok (colorPalettes "blue") s.oEffectOpacity s.oBackgroundOpacity 36 hblue
      (by omega)
  obtain ⟨qf, hqf, -, -⟩ :=
    NewPalette_ok (colorPalettes "fire") s.oEffectOpacity s.oBackgroundOpacity 37 hfire
      (by omega)
  rcases hname with hn | hn
  · obtain ⟨q, p0, hq, hp0, -, hrgb⟩ :=
      NewPalette_rgb_eq (colorPalettes "fire") 37 hfire (by omega)
        s.oEffectOpacity s.oBackgroundOpacity e b
    refine ⟨{ s with paletteName := "blue", colorPalette := qb },
      { s with paletteName := "fire", colorPalette := q }, p0, ?_, ?_, ?_, ?_, ?_, hrgb⟩
    · simp only [inputSwitchColorPalette, hn, if_true, hqb]
    · simp [inputSwitchColorPalette, hq]
    · rw [hn]; show ("blue" : String) ≠ "fire"; decide
    · rw [hn]
    · rw [hn]; exact hp0
  · obtain ⟨q, p0, hq, hp0, -, hrgb⟩ :=
      NewPalette_rgb_eq (colorPalettes "blue") 36 hblue (by omega)
        s.oEffectOpacity s.oBackgroundOpacity e b
    refine ⟨{ s with paletteName := "fire", colorPalette := qf },
      { s with paletteName := "blue", colorPalette := q }, p0, ?_, ?_, ?_, ?_, ?_, hrgb⟩
    · have hne : ¬ ("blue" = "fire") := by decide
      simp only [inputSwitchColorPalette, hn, hne, if_true, if_false, hqf]
    · simp [inputSwitchColorPalette, hq]
    · rw [hn]; show ("fire" : String) ≠ "blue"; decide
    · rw [hn]
    · rw [hn]; exact hp0

/-- Witness of C13 from the start state of a 4 by 4 screen, whose palette
name is "fire". -/
theorem inputSwitchColorPalette_twice_witness :
    scenarioA.paletteName = "fire" ∧
    ∃ s1 s2 p0,
      inputSwitchColorPalette true scenarioA = some s1 ∧
      inputSwitchColorPalette true s1 = some s2 ∧
      s1.paletteName ≠ scenarioA.paletteName ∧ s2.paletteName = scenarioA.paletteName ∧
      NewPalette (colorPalettes scenarioA.paletteName) 200 100 = Result.ok p0 ∧
      s2.colorPalette.map (fun c => (c.R, c.G, c.B))
        = p0.map (fun c => (c.R, c.G, c.B)) :=
  ⟨by decide,
   (inputSwitchColorPalette_twice scenarioA 200 100 (Or.inl (by decide))).2.2.2⟩

/-! ## `applyFuncToBufferedPixel`: the order of the calls -/

theorem flatMap_range_length {α : Type} (f : Nat → List α) (m : Nat)
    (hf : ∀ x, (f x).length = m) : ∀ n, ((List.range n).flatMap f).length = n * m := by
  intro n
  induction n with
  | zero => simp
  | succ n ih =>
    rw [List.range_succ, List.flatMap_append, List.length_append, ih]
    simp only [List.flatMap_cons, List.flatMap_nil, List.append_nil, hf]
    ring

theorem flatMap_range_getElem? {α : Type} (f : Nat → List α) (m : Nat)
    (hf : ∀ x, (f x).length = m) :
    ∀ n x j, x < n → j < m → ((List.range n).flatMap f)[x * m + j]? = (f x)[j]? := by
  intro n
  induction n with
  | zero => intro x j hx _; omega
  | succ n ih =>
    intro x j hx hj
    have hlen := flatMap_range_length f m hf n
    rw [List.range_succ, List.flatMap_append]
    simp only [List.flatMap_cons, List.flatMap_nil, List.append_nil]
    by_cases hxn : x < n
    · have hle : (x + 1) * m ≤ n * m := Nat.mul_le_mul_right m (by omega)
      have hlt : x * m + j < ((List.range n).flatMap f).length := by
        rw [hlen]
        have : (x + 1) * m = x * m + m := by ring
        omega
      rw [List.getElem?_append_left hlt]
      exact ih x j hxn hj
    · have hx2 : x = n := by omega
      subst hx2
      rw [List.getElem?_append_right (by rw [hlen]; omega), hlen]
      congr 1
      omega

/-- The column of a source index: `(y*w + x) mod w = x` for `0 <= x < w`. -/
theorem pixel_column (w x y : Int) (h0 : 0 ≤ x) (h1 : x < w) : (y * w + x) % w = x := by
  rw [add_comm, Int.add_mul_emod_self]
  exact Int.emod_eq_of_lt h0 h1

theorem mem_pixelOrder (w h p : Int) :
    p ∈ pixelOrder w h ↔ ∃ x y : Int, 0 ≤ x ∧ x < w ∧ 1 ≤ y ∧ y < h ∧ p = y * w + x := by
  unfold pixelOrder
  simp only [List.mem_flatMap, List.mem_range, List.mem_map, List.mem_range'_1]
  constructor
  · rintro ⟨x, hx, y, ⟨hy1, hy2⟩, rfl⟩
    exact ⟨x, y, by omega, by omega, by omega, by omega, rfl⟩
  · rintro ⟨x, y, hx0, hx1, hy1, hy2, rfl⟩
    refine ⟨x.toNat, by omega, y.toNat, ⟨by omega, by omega⟩, ?_⟩
    rw [Int.toNat_of_nonneg hx0, Int.toNat_of_nonneg (by omega : (0 : Int) ≤ y)]

/-- Every source index of the pass lies in `[w, w*h)`, and `w >= 1` when
there is one. -/
theorem pixelOrder_bounds (w h p : Int) (hp : p ∈ pixelOrder w h) :
    1 ≤ w ∧ w ≤ p ∧ p < w * h := by
  obtain ⟨x, y, hx0, hx1, hy1, hy2, rfl⟩ := (mem_pixelOrder w h p).mp hp
  have hw : 0 ≤ w := by omega
  have h1 : 1 * w ≤ y * w := Int.mul_le_mul_of_nonneg_right hy1 hw
  have h2 : (y + 1) * w ≤ h * w := Int.mul_le_mul_of_nonneg_right (by omega) hw
  have h3 : (y + 1) * w = y * w + w := by ring
  have h4 : h * w = w * h := by ring
  refine ⟨?_, ?_, ?_⟩ <;> omega

theorem pixelOrder_nodup (w h : Int) : (pixelOrder w h).Nodup := by
  unfold pixelOrder
  rw [List.nodup_flatMap]
  constructor
  · intro x hx
    rw [List.mem_range] at hx
    have hw : w ≠ 0 := by omega
    apply List.Nodup.map_on _ (List.nodup_range' 1 _)
    intro y1 _ y2 _ heq
    have h1 : (y1 : Int) * w = (y2 : Int) * w := by omega
    have h2 := Int.eq_of_mul_eq_mul_right hw h1
    omega
  · apply List.Pairwise.imp_of_mem _ (List.pairwise_lt_range _)
    intro x1 x2 hx1 hx2 hlt
    rw [List.mem_range] at hx1 hx2
    simp only [Function.onFun]
    rw [List.disjoint_left]
    intro p hp1 hp2
    simp only [List.mem_map] at hp1 hp2
    obtain ⟨y1, -, rfl⟩ := hp1
    obtain ⟨y2, -, heq⟩ := hp2
    have c1 := pixel_column w x1 y1 (by omega) (by omega)
    have c2 := pixel_column w x2 y2 (by omega) (by omega)
    rw [heq, c1] at c2
    omega

theorem pixelOrder_length (w h : Int) :
    (pixelOrder w h).length = w.toNat * (h.toNat - 1) := by
  unfold pixelOrder
  exact flatMap_range_length _ _ (fun x => by simp) _

theorem pixelOrder_getElem? (w h : Int) (x y : Nat) (hx : (x : Int) < w) (hy1 : 1 ≤ y)
    (hy2 : (y : Int) < h) :
    (pixelOrder w h)[x * (h.toNat - 1) + (y - 1)]? = some ((y : Int) * w + (x : Int)) := by
  unfold pixelOrder
  rw [flatMap_range_getElem? _ (h.toNat - 1) (fun x => by simp) _ x (y - 1) (by omega)
    (by omega)]
  rw [List.getElem?_map, List.getElem?_range' _ _ (by omega)]
  simp only [Option.map_some', Nat.one_mul]
  have : 1 + (y - 1) = y := by omega
  rw [this]

theorem foldlM_flatMap_option {α β σ : Type} (g : σ → β → Option σ) (f : α → List β) :
    ∀ (l : List α) (a : σ),
      (l.flatMap f).foldlM g a = l.foldlM (fun a x => (f x).foldlM g a) a := by
  intro l
  induction l with
  | nil => intro a; rfl
  | cons x l ih =>
    intro a
    rw [List.flatMap_cons, List.foldlM_append, List.foldlM_cons]
    cases (f x).foldlM g a with
    | none => rfl
    | some a1 => exact ih a1

/-- The two nested loops of `applyFuncToBufferedPixel` call the effect along
`pixelOrder`, one call after the other. -/
theorem applyFuncToBufferedPixel_eq (effect : State → Int → Option State) (s : State) :
    applyFuncToBufferedPixel effect s
      = (pixelOrder s.screenWidth s.screenHeight).foldlM effect s := by
  unfold applyFuncToBufferedPixel pixelOrder
  rw [foldlM_flatMap_option]
  simp only [List.foldlM_map]

/-- C16. For every width `w` and height `h`, `applyFuncToBufferedPixel` runs
the effect along the list `pixelOrder w h`, which holds exactly the indices
`p = y*w + x` with `0 <= x < w` and `1 <= y < h`, each once; call number
`x*(h-1) + (y-1)` is the one at `y*w + x` (`x` outer, `y` inner); there are
`w*(h-1)` calls, and every index is at least `w`, so no cell of the top row is
a source. -/
theorem applyFuncToBufferedPixel_order (w h : Int) :
    (∀ (effect : State → Int → Option State) (s : State),
      s.screenWidth = w → s.screenHeight = h →
      applyFuncToBufferedPixel effect s = (pixelOrder w h).foldlM effect s) ∧
    (∀ p, p ∈ pixelOrder w h ↔
      ∃ x y : Int, 0 ≤ x ∧ x < w ∧ 1 ≤ y ∧ y < h ∧ p = y * w + x) ∧
    (pixelOrder w h).Nodup ∧
    (∀ x y : Nat, (x : Int) < w → 1 ≤ y → (y : Int) < h →
      (pixelOrder w h)[x * (h.toNat - 1) + (y - 1)]? = some ((y : Int) * w + (x : Int))) ∧
    (pixelOrder w h).length = w.toNat * (h.toNat - 1) ∧
    (0 ≤ w → 1 ≤ h → ((pixelOrder w h).length : Int) = w * (h - 1)) ∧
    (∀ p ∈ pixelOrder w h, w ≤ p) := by
  refine ⟨?_, mem_pixelOrder w h, pixelOrder_nodup w h, pixelOrder_getElem? w h,
    pixelOrder_length w h, ?_, fun p hp => (pixelOrder_bounds w h p hp).2.1⟩
  · intro effect s hw hh
    subst hw hh
    exact applyFuncToBufferedPixel_eq effect s
  · intro hw hh
    rw [pixelOrder_length]
    push_cast
    rw [Int.toNat_of_nonneg hw]
    have : ((h.toNat - 1 : Nat) : Int) = h - 1 := by omega
    rw [this]

/-- Witness of C16 on a 4 by 4 screen: the twelve calls in order. -/
theorem applyFuncToBufferedPixel_order_witness :
    pixelOrder 4 4 = [4, 8, 12, 5, 9, 13, 6, 10, 14, 7, 11, 15] ∧
    ((pixelOrder 4 4).length : Int) = 4 * (4 - 1) ∧
    (pixelOrder 4 4)[2 * ((4 : Int).toNat - 1) + (3 - 1)]? = some (((3 : Nat) : Int) * 4 + ((2 : Nat) : Int)) :=
  ⟨by decide,
   (applyFuncToBufferedPixel_order 4 4).2.2.2.2.2.1 (by decide) (by decide),
   (applyFuncToBufferedPixel_order 4 4).2.2.2.1 2 3 (by decide) (by decide) (by decide)⟩

/-! ## Folds in `Option` -/

theorem foldlM_some_of_inv {σ ι : Type} (f : σ → ι → Option σ) (Inv : σ → Prop)
    (ok : ι → Prop)
    (hstep : ∀ a i, Inv a → ok i → ∃ a2, f a i = some a2 ∧ Inv a2) :
    ∀ (l : List ι) (a : σ), Inv a → (∀ i ∈ l, ok i) →
      ∃ a2, l.foldlM f a = some a2 ∧ Inv a2 := by
  intro l
  induction l with
  | nil => intro a ha _; exact ⟨a, rfl, ha⟩
  | cons i l ih =>
    intro a ha hok
    obtain ⟨a1, h1, hinv1⟩ := hstep a i ha (hok i (List.mem_cons_self _ _))
    obtain ⟨a2, h2, hinv2⟩ := ih a1 hinv1 (fun j hj => hok j (List.mem_cons_of_mem _ hj))
    exact ⟨a2, by simp only [List.foldlM_cons, h1, Option.bind_eq_bind, Option.some_bind, h2],
      hinv2⟩

theorem foldlM_inv_of_some {σ ι : Type} (f : σ → ι → Option σ) (Inv : σ → Prop)
    (hstep : ∀ a i a2, Inv a → f a i = some a2 → Inv a2) :
    ∀ (l : List ι) (a a2 : σ), Inv a → l.foldlM f a = some a2 → Inv a2 := by
  intro l
  induction l with
  | nil =>
    intro a a2 ha h
    simp only [List.foldlM_nil, Option.pure_def, Option.some.injEq] at h
    exact h ▸ ha
  | cons i l ih =>
    intro a a2 ha h
    simp only [List.foldlM_cons, Option.bind_eq_bind] at h
    cases h1 : f a i with
    | none => rw [h1] at h; simp at h
    | some a1 =>
      rw [h1, Option.some_bind] at h
      exact ih a1 a2 (hstep a i a1 ha h1) h

theorem foldlM_rel {σ ι : Type} (f : σ → ι → Option σ) (R : σ → σ → Prop)
    (hstep : ∀ a b i, R a b →
      (f a i = none ∧ f b i = none) ∨ ∃ a2 b2, f a i = some a2 ∧ f b i = some b2 ∧ R a2 b2) :
    ∀ (l : List ι) (a b : σ), R a b →
      (l.foldlM f a = none ∧ l.foldlM f b = none) ∨
        ∃ a2 b2, l.foldlM f a = some a2 ∧ l.foldlM f b = some b2 ∧ R a2 b2 := by
  intro l
  induction l with
  | nil => intro a b hab; exact Or.inr ⟨a, b, rfl, rfl, hab⟩
  | cons i l ih =>
    intro a b hab
    simp only [List.foldlM_cons, Option.bind_eq_bind]
    rcases hstep a b i hab with ⟨ha, hb⟩ | ⟨a1, b1, ha, hb, hr⟩
    · left; rw [ha, hb]; exact ⟨rfl, rfl⟩
    · rw [ha, hb, Option.some_bind, Option.some_bind]
      exact ih a1 b1 hr

/-! ## `fireEffect`: inversion and targets -/

theorem sliceGet_eq_none {α : Type} (s : List α) (i : Int)
    (h : ¬ (0 ≤ i ∧ i < (s.length : Int))) : sliceGet s i = none := by
  unfold sliceGet
  by_cases h0 : 0 ≤ i
  · rw [if_pos h0]
    exact List.getElem?_eq_none (by omega)
  · rw [if_neg h0]

theorem sliceSet_eq_none {α : Type} (s : List α) (i : Int) (v : α)
    (h : ¬ (0 ≤ i ∧ i < (s.length : Int))) : sliceSet s i v = none := by
  unfold sliceSet
  rw [if_neg]
  intro h2
  exact h ⟨h2.1, by omega⟩

/-- If `fireEffect` returns, the source and the target were in bounds and the
result is the single-cell update. -/
theorem fireEffect_some_inv (s : State) (p : Int) (s2 : State)
    (h : fireEffect s p = some s2) :
    ∃ cur b0, sliceGet s.pixelBuffer.cells p = some cur ∧
      sliceGet s.pixelBuffer.cells 0 = some b0 ∧
      fireEffect.target s p ((s.theRand.next.2.next.1 &&& 3 : Nat) : Int)
        < (s.pixelBuffer.cells.length : Int) ∧
      s2 = { s with
        theRand := s.theRand.next.2.next.2,
        pixelBuffer := { s.pixelBuffer with
          cells := s.pixelBuffer.cells.set
            (fireEffect.target s p ((s.theRand.next.2.next.1 &&& 3 : Nat) : Int)).toNat
            (if 2 ≤ cur then cur - ((s.theRand.next.1 &&& 1 : Nat) : Int) else b0) } } := by
  by_cases hp : 0 ≤ p ∧ p < (s.pixelBuffer.cells.length : Int)
  · obtain ⟨cur, hcur⟩ := sliceGet_isSome s.pixelBuffer.cells p hp.1 hp.2
    obtain ⟨b0, hb0⟩ := sliceGet_isSome s.pixelBuffer.cells 0 (le_refl 0) (by omega)
    by_cases ht : fireEffect.target s p ((s.theRand.next.2.next.1 &&& 3 : Nat) : Int)
        < (s.pixelBuffer.cells.length : Int)
    · refine ⟨cur, b0, hcur, hb0, ht, ?_⟩
      rw [fireEffect_eval s p cur b0 hcur hb0 ht] at h
      exact (Option.some.inj h).symm
    · exfalso
      have hset : ∀ v, sliceSet s.pixelBuffer.cells
          (fireEffect.target s p ((s.theRand.next.2.next.1 &&& 3 : Nat) : Int)) v = none :=
        fun v => sliceSet_eq_none _ _ v (fun hh => ht hh.2)
      unfold fireEffect at h
      simp only [hcur, hb0, hset, Option.bind_eq_bind, Option.some_bind, Option.none_bind,
        ite_self] at h
      cases h
  · exfalso
    unfold fireEffect at h
    simp only [sliceGet_eq_none _ _ hp, Option.bind_eq_bind, Option.none_bind] at h
    cases h

theorem fireEffect_target_congr (a s : State) (p j : Int)
    (hw : a.screenWidth = s.screenWidth) (hwp : a.oWindPower = s.oWindPower)
    (hwd : a.oWindDirection = s.oWindDirection) :
    fireEffect.target a p j = fireEffect.target s p j := by
  simp only [fireEffect.target, fireEffect.dx, hw, hwp, hwd]

/-- With `windPower*windDirection >= 0` the target is at most `p - width`. -/
theorem fireEffect_target_le_of_tailwind (s : State) (p j : Int)
    (hwind : 0 ≤ s.oWindPower * s.oWindDirection) (hj : 0 ≤ j) (hp : s.screenWidth ≤ p) :
    fireEffect.target s p j ≤ p - s.screenWidth := by
  simp only [fireEffect.target, fireEffect.dx]
  generalize s.oWindPower * s.oWindDirection = k at hwind
  split <;> split <;> omega

/-- With the direction +1, or the wind power below the width, the target is
inside a buffer of `width*height` cells. -/
theorem fireEffect_target_lt_of_side (s : State) (p j H : Int)
    (hw : 1 ≤ s.screenWidth)
    (hp : s.screenWidth ≤ p ∧ p < s.screenWidth * H)
    (hpow : 0 ≤ s.oWindPower ∧ s.oWindPower ≤ 6)
    (hdir : s.oWindDirection = 1 ∨ s.oWindDirection = -1)
    (hside : s.oWindDirection = 1 ∨ s.oWindPower < s.screenWidth) (hj : 0 ≤ j) :
    fireEffect.target s p j < s.screenWidth * H := by
  simp only [fireEffect.target, fireEffect.dx]
  rcases hdir with hd | hd
  · rw [hd, mul_one]
    split <;> split <;> omega
  · have hlt : s.oWindPower < s.screenWidth := by
      rcases hside with h1 | h1
      · omega
      · exact h1
    rw [hd]
    simp only [mul_neg, mul_one]
    split <;> split <;> omega

/-- A full pass returns when every target is below a bound `B <= width*height`,
and then the parameters are unchanged and the cells from `B` on keep their
values. -/
theorem pass_returns (s : State) (B : Int)
    (hlen : (s.pixelBuffer.cells.length : Int) = s.screenWidth * s.screenHeight)
    (hB : B ≤ s.screenWidth * s.screenHeight)
    (htarget : ∀ p j, 1 ≤ s.screenWidth → s.screenWidth ≤ p →
      p < s.screenWidth * s.screenHeight → 0 ≤ j → fireEffect.target s p j < B) :
    ∃ s2, applyFuncToBufferedPixel fireEffect s = some s2 ∧
      s2.screenWidth = s.screenWidth ∧ s2.screenHeight = s.screenHeight ∧
      s2.oWindPower = s.oWindPower ∧ s2.oWindDirection = s.oWindDirection ∧
      s2.colorPalette = s.colorPalette ∧ s2.frame = s.frame ∧
      s2.pixelBuffer.cells.length = s.pixelBuffer.cells.length ∧
      ∀ i : Int, B ≤ i → sliceGet s2.pixelBuffer.cells i = sliceGet s.pixelBuffer.cells i := by
  rw [applyFuncToBufferedPixel_eq]
  apply foldlM_some_of_inv fireEffect
    (fun a => a.screenWidth = s.screenWidth ∧ a.screenHeight = s.screenHeight ∧
      a.oWindPower = s.oWindPower ∧ a.oWindDirection = s.oWindDirection ∧
      a.colorPalette = s.colorPalette ∧ a.frame = s.frame ∧
      a.pixelBuffer.cells.length = s.pixelBuffer.cells.length ∧
      ∀ i : Int, B ≤ i → sliceGet a.pixelBuffer.cells i = sliceGet s.pixelBuffer.cells i)
    (fun p => 1 ≤ s.screenWidth ∧ s.screenWidth ≤ p ∧ p < s.screenWidth * s.screenHeight)
  · rintro a p ⟨hw, hh, hwp, hwd, hpal, hfr, hl, hcells⟩ ⟨hw1, hp1, hp2⟩
    have ht : fireEffect.target a p ((a.theRand.next.2.next.1 &&& 3 : Nat) : Int) < B := by
      rw [fireEffect_target_congr a s p _ hw hwp hwd]
      exact htarget p _ hw1 hp1 hp2 (Int.natCast_nonneg _)
    have ht0 := fireEffect_target_nonneg a p ((a.theRand.next.2.next.1 &&& 3 : Nat) : Int)
    obtain ⟨cur, hcur⟩ := sliceGet_isSome a.pixelBuffer.cells p (by omega) (by omega)
    obtain ⟨b0, hb0⟩ := sliceGet_isSome a.pixelBuffer.cells 0 (le_refl 0) (by omega)
    refine ⟨_, fireEffect_eval a p cur b0 hcur hb0 (by omega), hw, hh, hwp, hwd, hpal, hfr, ?_,
      ?_⟩
    · simp only [List.length_set]; exact hl
    · intro i hi
      simp only []
      rw [sliceGet_set_other _ _ i _ ht0 (by omega)]
      exact hcells i hi
  · exact ⟨rfl, rfl, rfl, rfl, rfl, rfl, rfl, fun _ _ => rfl⟩
  · intro p hp
    exact pixelOrder_bounds _ _ p hp

/-- C12, counterexample. On the 4 by 4 scenario with wind power 2 and
direction -1, one full pass returns and the bottom row, `[2, 2, 2, 2]` before
it, is `[2, 1, 2, 2]` after it. -/
theorem pass_changes_bottom_row :
    (0 ≤ headwindState.oWindPower ∧ headwindState.oWindPower ≤ 6) ∧
    headwindState.oWindDirection = -1 ∧
    headwindState.pixelBuffer.cells.drop 12 = [2, 2, 2, 2] ∧
    (applyFuncToBufferedPixel fireEffect headwindState).map
      (fun s => s.pixelBuffer.cells.drop 12) = some [2, 1, 2, 2] := by
  decide

/-- C12, amended. For every buffer of `width*height` cells, every generator
state, every wind power in `[0,6]` and wind direction in `{+1,-1}`, provided
the direction is +1 or the power is 0, no call of `fireEffect` made during a
full pass writes to a cell of the bottom row (every target is below
`width*(height-1)`), the pass returns, and the cells of the bottom row are the
same after it as before. -/
theorem pass_keeps_bottom_row (s : State)
    (hlen : (s.pixelBuffer.cells.length : Int) = s.screenWidth * s.screenHeight)
    (hpow : 0 ≤ s.oWindPower ∧ s.oWindPower ≤ 6)
    (_hdir : s.oWindDirection = 1 ∨ s.oWindDirection = -1)
    (hside : s.oWindDirection = 1 ∨ s.oWindPower = 0) :
    (∀ (a : State) (p : Int), a.screenWidth = s.screenWidth →
      a.oWindPower = s.oWindPower → a.oWindDirection = s.oWindDirection →
      p ∈ pixelOrder s.screenWidth s.screenHeight →
      fireEffect.target a p ((a.theRand.next.2.next.1 &&& 3 : Nat) : Int)
        < s.screenWidth * (s.screenHeight - 1)) ∧
    ∃ s2, applyFuncToBufferedPixel fireEffect s = some s2 ∧
      s2.pixelBuffer.cells.length = s.pixelBuffer.cells.length ∧
      ∀ i : Int, s.screenWidth * (s.screenHeight - 1) ≤ i →
        sliceGet s2.pixelBuffer.cells i = sliceGet s.pixelBuffer.cells i := by
  have hwind : 0 ≤ s.oWindPower * s.oWindDirection := by
    rcases hside with h1 | h1
    · rw [h1]; omega
    · rw [h1]; omega
  have hmul : s.screenWidth * (s.screenHeight - 1)
      = s.screenWidth * s.screenHeight - s.screenWidth := by ring
  have htarget : ∀ p j, 1 ≤ s.screenWidth → s.screenWidth ≤ p →
      p < s.screenWidth * s.screenHeight → 0 ≤ j →
      fireEffect.target s p j < s.screenWidth * (s.screenHeight - 1) := by
    intro p j _ hp1 hp2 hj
    have := fireEffect_target_le_of_tailwind s p j hwind hj hp1
    omega
  constructor
  · intro a p hw hwp hwd hp
    obtain ⟨hw1, hp1, hp2⟩ := pixelOrder_bounds _ _ p hp
    rw [fireEffect_target_congr a s p _ hw hwp hwd]
    exact htarget p _ hw1 hp1 hp2 (Int.natCast_nonneg _)
  · by_cases hw1 : 1 ≤ s.screenWidth
    · obtain ⟨s2, hs2, -, -, -, -, -, -, hl, hcells⟩ :=
        pass_returns s (s.screenWidth * (s.screenHeight - 1)) hlen (by omega) htarget
      exact ⟨s2, hs2, hl, hcells⟩
    · refine ⟨s, ?_, rfl, fun _ _ => rfl⟩
      rw [applyFuncToBufferedPixel_eq]
      unfold pixelOrder
      have : s.screenWidth.toNat = 0 := by omega
      rw [this]
      rfl

/-- Witness of the amended C12: the 4 by 4 scenario, wind power 0. -/
theorem pass_keeps_bottom_row_witness :
    ∃ s2, applyFuncToBufferedPixel fireEffect scenarioA = some s2 ∧
      s2.pixelBuffer.cells.length = scenarioA.pixelBuffer.cells.length ∧
      ∀ i : Int, scenarioA.screenWidth * (scenarioA.screenHeight - 1) ≤ i →
        sliceGet s2.pixelBuffer.cells i = sliceGet scenarioA.pixelBuffer.cells i :=
  (pass_keeps_bottom_row scenarioA (by decide) (by decide) (by decide) (by decide)).2

/-! ## The full pass: determinism and range -/

/-- The outcome of `fireEffect` depends only on the generator, the cells, the
screen dimensions and the wind. -/
theorem fireEffect_transfer (a b : State) (p : Int)
    (hr : a.theRand = b.theRand) (hc : a.pixelBuffer.cells = b.pixelBuffer.cells)
    (hw : a.screenWidth = b.screenWidth) (hh : a.screenHeight = b.screenHeight)
    (hwp : a.oWindPower = b.oWindPower) (hwd : a.oWindDirection = b.oWindDirection)
    (a2 : State) (h : fireEffect a p = some a2) :
    ∃ b2, fireEffect b p = some b2 ∧
      a2.theRand = b2.theRand ∧ a2.pixelBuffer.cells = b2.pixelBuffer.cells ∧
      a2.screenWidth = b2.screenWidth ∧ a2.screenHeight = b2.screenHeight ∧
      a2.oWindPower = b2.oWindPower ∧ a2.oWindDirection = b2.oWindDirection := by
  obtain ⟨cur, b0, hcur, hb0, ht, rfl⟩ := fireEffect_some_inv a p a2 h
  have htc := fireEffect_target_congr a b p
    ((b.theRand.next.2.next.1 &&& 3 : Nat) : Int) hw hwp hwd
  rw [hc] at hcur hb0
  rw [hr, htc, hc] at ht
  refine ⟨_, fireEffect_eval b p cur b0 hcur hb0 ht, ?_, ?_, hw, hh, hwp, hwd⟩
  · simp only [hr]
  · simp only [hr, hc, htc]

/-- C15. One full pass is a function of the generator state, the buffer
contents, the width, the height, the wind power and the wind direction: two
states that agree on these (and may differ in every other variable) either
both panic or both return, with identical buffer contents and identical
generator state. -/
theorem pass_deterministic (s1 s2 : State)
    (hrand : s1.theRand = s2.theRand)
    (hcells : s1.pixelBuffer.cells = s2.pixelBuffer.cells)
    (hw : s1.screenWidth = s2.screenWidth) (hh : s1.screenHeight = s2.screenHeight)
    (hwp : s1.oWindPower = s2.oWindPower) (hwd : s1.oWindDirection = s2.oWindDirection) :
    (applyFuncToBufferedPixel fireEffect s1).map (fun s => (s.pixelBuffer.cells, s.theRand))
      = (applyFuncToBufferedPixel fireEffect s2).map
          (fun s => (s.pixelBuffer.cells, s.theRand)) := by
  have hfold := foldlM_rel fireEffect
    (fun a b => a.theRand = b.theRand ∧ a.pixelBuffer.cells = b.pixelBuffer.cells ∧
      a.screenWidth = b.screenWidth ∧ a.screenHeight = b.screenHeight ∧
      a.oWindPower = b.oWindPower ∧ a.oWindDirection = b.oWindDirection)
    (by
      rintro a b p ⟨hr, hc, hw2, hh2, hwp2, hwd2⟩
      cases ha : fireEffect a p with
      | none =>
        left
        refine ⟨rfl, ?_⟩
        cases hb : fireEffect b p with
        | none => rfl
        | some b2 =>
          obtain ⟨a2, ha2, -⟩ := fireEffect_transfer b a p hr.symm hc.symm hw2.symm hh2.symm
            hwp2.symm hwd2.symm b2 hb
          rw [ha] at ha2
          cases ha2
      | some a2 =>
        right
        obtain ⟨b2, hb2, hrel⟩ := fireEffect_transfer a b p hr hc hw2 hh2 hwp2 hwd2 a2 ha
        exact ⟨a2, b2, rfl, hb2, hrel⟩)
    (pixelOrder s1.screenWidth s1.screenHeight) s1 s2 ⟨hrand, hcells, hw, hh, hwp, hwd⟩
  rw [applyFuncToBufferedPixel_eq, applyFuncToBufferedPixel_eq, ← hw, ← hh]
  rcases hfold with ⟨h1, h2⟩ | ⟨a2, b2, h1, h2, hr, hc, -⟩
  · rw [h1, h2]
  · rw [h1, h2]
    simp only [Option.map_some', hr, hc]

/-- Witness of C15: the 4 by 4 scenario and the same scenario with the
background opacity at 0 give the same cells and generator. -/
theorem pass_deterministic_witness :
    scenarioA ≠ transparentState ∧
    (applyFuncToBufferedPixel fireEffect scenarioA).map
        (fun s => (s.pixelBuffer.cells, s.theRand))
      = (applyFuncToBufferedPixel fireEffect transparentState).map
          (fun s => (s.pixelBuffer.cells, s.theRand)) :=
  ⟨by decide, pass_deterministic scenarioA transparentState rfl rfl rfl rfl rfl rfl⟩

theorem sliceGet_mem {α : Type} (s : List α) (i : Int) (v : α) (h : sliceGet s i = some v) :
    v ∈ s := by
  unfold sliceGet at h
  split at h
  · exact List.getElem?_mem h
  · cases h

/-- A returning call of `fireEffect` keeps every cell inside `[0, M]`. -/
theorem fireEffect_range (s : State) (p : Int) (s2 : State) (M : Int)
    (h : fireEffect s p = some s2) (hM : ∀ v ∈ s.pixelBuffer.cells, 0 ≤ v ∧ v ≤ M) :
    ∀ v ∈ s2.pixelBuffer.cells, 0 ≤ v ∧ v ≤ M := by
  obtain ⟨cur, b0, hcur, hb0, -, rfl⟩ := fireEffect_some_inv s p s2 h
  intro v hv
  simp only [] at hv
  rcases List.mem_or_eq_of_mem_set hv with h1 | h1
  · exact hM v h1
  · have hc := hM cur (sliceGet_mem _ _ _ hcur)
    have hb := hM b0 (sliceGet_mem _ _ _ hb0)
    have hy : ((s.theRand.next.1 &&& 1 : Nat) : Int) ≤ 1 := by
      have := @Nat.and_le_right s.theRand.next.1 1
      omega
    have hy0 : 0 ≤ ((s.theRand.next.1 &&& 1 : Nat) : Int) := Int.natCast_nonneg _
    rw [h1]
    split <;> omega

/-- C17. If every cell of the buffer is in `[0, M]`, then an in-bounds call of
`fireEffect(p)` returns with every cell in `[0, M]`; a full pass that returns
leaves every cell in `[0, M]`; and where the pass is safe (a buffer of
`width*height` cells, wind power in `[0,6]`, direction +1 or power below the
width) it does return, no intensity is negative or above `M`, and
`applyPalette` on the result, with a non-empty palette and a frame of at
least four bytes per cell, indexes nothing out of range. -/
theorem fireEffect_range_invariant (s : State) (M : Int) (_hM0 : 0 ≤ M)
    (hM : ∀ v ∈ s.pixelBuffer.cells, 0 ≤ v ∧ v ≤ M) :
    (∀ p : Int, 0 ≤ p → p < (s.pixelBuffer.cells.length : Int) →
      fireEffect.target s p ((s.theRand.next.2.next.1 &&& 3 : Nat) : Int)
        < (s.pixelBuffer.cells.length : Int) →
      ∃ s2, fireEffect s p = some s2 ∧ ∀ v ∈ s2.pixelBuffer.cells, 0 ≤ v ∧ v ≤ M) ∧
    (∀ s2, applyFuncToBufferedPixel fireEffect s = some s2 →
      ∀ v ∈ s2.pixelBuffer.cells, 0 ≤ v ∧ v ≤ M) ∧
    ((s.pixelBuffer.cells.length : Int) = s.screenWidth * s.screenHeight →
      (0 ≤ s.oWindPower ∧ s.oWindPower ≤ 6) →
      (s.oWindDirection = 1 ∨ s.oWindDirection = -1) →
      (s.oWindDirection = 1 ∨ s.oWindPower < s.screenWidth) →
      ∃ s2, applyFuncToBufferedPixel fireEffect s = some s2 ∧
        (∀ v ∈ s2.pixelBuffer.cells, 0 ≤ v ∧ v ≤ M) ∧
        (s.colorPalette ≠ [] → 4 * s.pixelBuffer.cells.length ≤ s.frame.length →
          ∃ out, applyPalette s.frame s2.pixelBuffer.cells s.colorPalette = some out)) := by
  have hpass : ∀ s2, applyFuncToBufferedPixel fireEffect s = some s2 →
      ∀ v ∈ s2.pixelBuffer.cells, 0 ≤ v ∧ v ≤ M := by
    intro s2 h2
    rw [applyFuncToBufferedPixel_eq] at h2
    exact foldlM_inv_of_some fireEffect
      (fun a => ∀ v ∈ a.pixelBuffer.cells, 0 ≤ v ∧ v ≤ M)
      (fun a p a2 ha h => fireEffect_range a p a2 M h ha) _ s s2 hM h2
  refine ⟨?_, hpass, ?_⟩
  · intro p hp0 hp1 ht
    obtain ⟨cur, hcur⟩ := sliceGet_isSome s.pixelBuffer.cells p hp0 hp1
    obtain ⟨b0, hb0⟩ := sliceGet_isSome s.pixelBuffer.cells 0 (le_refl 0) (by omega)
    have he := fireEffect_eval s p cur b0 hcur hb0 ht
    exact ⟨_, he, fireEffect_range s p _ M he hM⟩
  · intro hlen hpow hdir hside
    obtain ⟨s2, hs2, -, -, -, -, -, -, hl, -⟩ :=
      pass_returns s (s.screenWidth * s.screenHeight) hlen (le_refl _)
        (fun p j hw1 hp1 hp2 hj =>
          fireEffect_target_lt_of_side s p j s.screenHeight hw1 ⟨hp1, hp2⟩ hpow hdir hside hj)
    refine ⟨s2, hs2, hpass s2 hs2, ?_⟩
    intro hpal hframe
    obtain ⟨out, hout, -⟩ :=
      applyPalette_loop_spec s.colorPalette hpal s2.pixelBuffer.cells 0 s.frame
        (fun v hv => (hpass s2 hs2 v hv).1) (by omega)
    exact ⟨out, hout⟩

/-- Witness of C17: the 4 by 4 scenario with `M = 2`. -/
theorem fireEffect_range_invariant_witness :
    ∃ s2, applyFuncToBufferedPixel fireEffect scenarioA = some s2 ∧
      (∀ v ∈ s2.pixelBuffer.cells, 0 ≤ v ∧ v ≤ 2) ∧
      (scenarioA.colorPalette ≠ [] →
        4 * scenarioA.pixelBuffer.cells.length ≤ scenarioA.frame.length →
        ∃ out, applyPalette scenarioA.frame s2.pixelBuffer.cells scenarioA.colorPalette
          = some out) :=
  (fireEffect_range_invariant scenarioA 2 (by decide) (by decide)).2.2 (by decide) (by decide)
    (by decide) (by decide)

/-! ## `rand.next`: injectivity -/

/-- The map `x ↦ x XOR (x << 11)` on 32-bit words is injective. -/
theorem xorshift_left_injective (x x2 : Nat)
    (h : x ^^^ (x * 2 ^ 11 % 2 ^ 32) = x2 ^^^ (x2 * 2 ^ 11 % 2 ^ 32)) : x = x2 := by
  apply Nat.eq_of_testBit_eq
  intro i
  induction i using Nat.strong_induction_on with
  | _ i ih =>
    have hb := congrArg (fun n => n.testBit i) h
    simp only [← Nat.shiftLeft_eq, Nat.testBit_xor, Nat.testBit_mod_two_pow,
      Nat.testBit_shiftLeft] at hb
    by_cases hi : 11 ≤ i
    · have hprev := ih (i - 11) (by omega)
      rw [hprev] at hb
      exact Bool.xor_right_inj.mp hb
    · have hd : decide (i ≥ 11) = false := by simp; omega
      simp only [hd, Bool.false_and, Bool.and_false, Bool.xor_false] at hb
      exact hb

/-- The map `t ↦ t XOR (t >> 8)` on 32-bit words is injective. -/
theorem xorshift_right_injective (t t2 : Nat) (ht : t < 2 ^ 32) (ht2 : t2 < 2 ^ 32)
    (h : t ^^^ (t / 2 ^ 8) = t2 ^^^ (t2 / 2 ^ 8)) : t = t2 := by
  have hbits : ∀ k i, 32 ≤ i + k → t.testBit i = t2.testBit i := by
    intro k
    induction k with
    | zero =>
      intro i hi
      have hpow : 2 ^ 32 ≤ 2 ^ i := Nat.pow_le_pow_right (by omega) (by omega)
      rw [Nat.testBit_lt_two_pow (lt_of_lt_of_le ht hpow),
        Nat.testBit_lt_two_pow (lt_of_lt_of_le ht2 hpow)]
    | succ k ih =>
      intro i hi
      have hb := congrArg (fun n => n.testBit i) h
      simp only [← Nat.shiftRight_eq_div_pow, Nat.testBit_xor, Nat.testBit_shiftRight] at hb
      have hnext := ih (8 + i) (by omega)
      rw [hnext] at hb
      exact Bool.xor_right_inj.mp hb
  exact Nat.eq_of_testBit_eq (fun i => hbits 32 i (by omega))

/-- The step of the specification is injective in `x` for a fixed `w`. -/
theorem xorshiftSpec_injective (x x2 w : Nat) (hx : x < 2 ^ 32) (hx2 : x2 < 2 ^ 32)
    (h : xorshiftSpec x w = xorshiftSpec x2 w) : x = x2 := by
  unfold xorshiftSpec at h
  have h1 := Nat.xor_right_injective h
  have hlt : ∀ a : Nat, a < 2 ^ 32 → a ^^^ (a * 2 ^ 11 % 2 ^ 32) < 2 ^ 32 := fun a ha =>
    Nat.xor_lt_two_pow ha (Nat.mod_lt _ (by norm_num))
  exact xorshift_left_injective x x2
    (xorshift_right_injective _ _ (hlt x hx) (hlt x2 hx2) h1)

theorem theRandAfter_wf (n : Nat) : (theRandAfter n).wf := by
  induction n with
  | zero => decide
  | succ n ih =>
    obtain ⟨hx, hy, hz, hw⟩ := ih
    rw [theRandAfter, rand_next_eq]
    exact ⟨hy, hz, hw, xorshiftSpec_lt _ _ hx hw⟩

theorem theRandOutput_eq (n : Nat) : theRandOutput n = seedWord (n + 4) := by
  rw [theRandOutput, theRandAfter_eq, rand_next_eq]
  simp only [seedWord]

/-- C19. The state transition of `rand.next()` is injective on states of
32-bit words and maps the all-zero state to itself (returning 0); hence a
non-zero state is never followed by the all-zero state, the generator started
from the fixed seed never reaches the all-zero state, and among any four
consecutive outputs from the seed at least one is not 0. -/
theorem rand_next_injective :
    (∀ r1 r2 : rand, r1.wf → r2.wf → r1.next.2 = r2.next.2 → r1 = r2) ∧
    (({ x := 0, y := 0, z := 0, w := 0 } : rand).next
      = (0, { x := 0, y := 0, z := 0, w := 0 })) ∧
    (∀ r : rand, r.wf → r ≠ { x := 0, y := 0, z := 0, w := 0 } →
      r.next.2 ≠ { x := 0, y := 0, z := 0, w := 0 }) ∧
    (∀ n, theRandAfter n ≠ { x := 0, y := 0, z := 0, w := 0 }) ∧
    (∀ n, ∃ m, n ≤ m ∧ m < n + 4 ∧ theRandOutput m ≠ 0) := by
  have hinj : ∀ r1 r2 : rand, r1.wf → r2.wf → r1.next.2 = r2.next.2 → r1 = r2 := by
    intro r1 r2 h1 h2 heq
    rw [rand_next_eq, rand_next_eq] at heq
    simp only [rand.mk.injEq] at heq
    obtain ⟨hy, hz, hw, hs⟩ := heq
    rw [hw] at hs
    have hx := xorshiftSpec_injective r1.x r2.x r2.w h1.1 h2.1 hs
    cases r1
    cases r2
    simp_all
  have hzero : ({ x := 0, y := 0, z := 0, w := 0 } : rand).next
      = (0, { x := 0, y := 0, z := 0, w := 0 }) := by decide
  have hstep : ∀ r : rand, r.wf → r ≠ { x := 0, y := 0, z := 0, w := 0 } →
      r.next.2 ≠ { x := 0, y := 0, z := 0, w := 0 } := by
    intro r hr hne hnext
    apply hne
    apply hinj r _ hr (by decide)
    rw [hnext, hzero]
  have hnever : ∀ n, theRandAfter n ≠ { x := 0, y := 0, z := 0, w := 0 } := by
    intro n
    induction n with
    | zero => decide
    | succ n ih => exact hstep _ (theRandAfter_wf n) ih
  refine ⟨hinj, hzero, hstep, hnever, ?_⟩
  intro n
  by_contra hall
  apply hnever (n + 4)
  have hz : ∀ m, n ≤ m → m < n + 4 → seedWord (m + 4) = 0 := by
    intro m h1 h2
    by_contra hne
    exact hall ⟨m, h1, h2, by rw [theRandOutput_eq]; exact hne⟩
  rw [theRandAfter_eq, hz n (by omega) (by omega), hz (n + 1) (by omega) (by omega),
    hz (n + 2) (by omega) (by omega), hz (n + 3) (by omega) (by omega)]

/-- Witness of C19: the seed is a non-zero state of 32-bit words, so the
state after the first call is not the all-zero state. -/
theorem rand_next_injective_witness :
    theRand.wf ∧ theRand.next.2 ≠ { x := 0, y := 0, z := 0, w := 0 } :=
  ⟨by decide, rand_next_injective.2.2.1 theRand (by decide) (by decide)⟩

/-! ## `inputToggleEffect` -/

/-- Seeding a row: `SetLineColor(y, v)` on a buffer of `w*h` cells with
`0 <= y < h` sets the cells `y*w .. y*w+w-1` to `v` and keeps the others. -/
theorem SetLineColor_row (b : Buffer) (y v : Int)
    (hlen : (b.cells.length : Int) = b.screenWidth * b.screenHeight)
    (hy : 0 ≤ y ∧ y < b.screenHeight) :
    ∃ cells, b.SetLineColor y v = some { b with cells := cells } ∧
      cells.length = b.cells.length ∧
      ∀ i : Int, sliceGet cells i
        = if y * b.screenWidth ≤ i ∧ i < y * b.screenWidth + b.screenWidth then some v
          else sliceGet b.cells i := by
  have hw : 0 ≤ b.screenWidth := by
    by_contra hneg
    have h1 : b.screenWidth * b.screenHeight < 0 :=
      Int.mul_neg_of_neg_of_pos (by omega) (by omega)
    omega
  have hstart : 0 ≤ y * b.screenWidth := Int.mul_nonneg hy.1 hw
  have h1 : (y + 1) * b.screenWidth ≤ b.screenHeight * b.screenWidth :=
    Int.mul_le_mul_of_nonneg_right (by omega) hw
  have h2 : (y + 1) * b.screenWidth = y * b.screenWidth + b.screenWidth := by ring
  have h3 : b.screenHeight * b.screenWidth = b.screenWidth * b.screenHeight := by ring
  have hcast : ((b.screenWidth.toNat : Nat) : Int) = b.screenWidth := Int.toNat_of_nonneg hw
  obtain ⟨cells, hfold, hl, hcells⟩ :=
    SetLineColor_loop_spec b (y * b.screenWidth) v hstart b.screenWidth.toNat
      (by rw [hcast]; omega)
  rw [hcast] at hcells
  exact ⟨cells, hfold, hl, hcells⟩

/-- C11. In a state with a non-empty palette, a buffer of `width*height`
cells and `height >= 1`, an effect-toggle event flips `effectEnable` and sets
every cell of the bottom row (`y = height-1`) to `len(palette)-1` when the
effect is now enabled and to 0 when it is now disabled, leaving every other
cell and variable unchanged; after toggling off, `applyPalette` (on
non-negative intensities and a frame of four bytes per cell) returns and
renders every bottom-row pixel with the four channels of palette entry 0. -/
theorem inputToggleEffect_spec (s : State)
    (hpal : s.colorPalette ≠ [])
    (hbw : s.pixelBuffer.screenWidth = s.screenWidth)
    (hbh : s.pixelBuffer.screenHeight = s.screenHeight)
    (hlen : (s.pixelBuffer.cells.length : Int) = s.screenWidth * s.screenHeight)
    (hh : 1 ≤ s.screenHeight) :
    ∃ cells,
      inputToggleEffect true s = some { s with
        effectEnable := !s.effectEnable,
        pixelBuffer := { s.pixelBuffer with cells := cells } } ∧
      cells.length = s.pixelBuffer.cells.length ∧
      (∀ i : Int, sliceGet cells i
        = if (s.screenHeight - 1) * s.screenWidth ≤ i ∧
              i < (s.screenHeight - 1) * s.screenWidth + s.screenWidth
          then some (if (!s.effectEnable) = true then (s.colorPalette.length : Int) - 1 else 0)
          else sliceGet s.pixelBuffer.cells i) ∧
      (s.effectEnable = true → (∀ v ∈ s.pixelBuffer.cells, 0 ≤ v) →
        4 * s.pixelBuffer.cells.length ≤ s.frame.length →
        ∃ out c0, applyPalette s.frame cells s.colorPalette = some out ∧
          sliceGet s.colorPalette 0 = some c0 ∧
          ∀ k : Nat, (s.screenHeight - 1) * s.screenWidth ≤ (k : Int) →
            (k : Int) < (s.screenHeight - 1) * s.screenWidth + s.screenWidth →
            out[4 * k]? = some c0.R ∧ out[4 * k + 1]? = some c0.G ∧
            out[4 * k + 2]? = some c0.B ∧ out[4 * k + 3]? = some c0.A) := by
  obtain ⟨cells, hset, hl, hcells⟩ :=
    SetLineColor_row s.pixelBuffer (s.screenHeight - 1)
      (if (!s.effectEnable) = true then (s.colorPalette.length : Int) - 1 else 0)
      (by rw [hbw, hbh]; exact hlen) (by rw [hbh]; omega)
  rw [hbw] at hcells
  refine ⟨cells, ?_, hl, hcells, ?_⟩
  · simp only [inputToggleEffect, if_true, hset, Option.map_some']
  · intro hon hnn hframe
    have hpl : 0 < s.colorPalette.length := List.length_pos.mpr hpal
    obtain ⟨c0, hc0⟩ := sliceGet_isSome s.colorPalette 0 (le_refl 0) (by omega)
    have hval : (if (!s.effectEnable) = true then (s.colorPalette.length : Int) - 1 else 0)
        = 0 := by
      rw [hon]; rfl
    rw [hval] at hcells
    have hnn2 : ∀ v ∈ cells, 0 ≤ v := by
      intro v hv
      obtain ⟨n, hn⟩ := List.getElem?_of_mem hv
      have hg := hcells (n : Int)
      rw [sliceGet_natCast, hn] at hg
      split at hg
      · simp only [Option.some.injEq] at hg
        omega
      · exact hnn v (sliceGet_mem _ _ _ hg.symm)
    obtain ⟨out, hout, -, -, -, hmid⟩ :=
      applyPalette_loop_spec s.colorPalette hpal cells 0 s.frame hnn2 (by omega)
    refine ⟨out, c0, hout, hc0, ?_⟩
    intro k hk1 hk2
    have hg := hcells (k : Int)
    rw [sliceGet_natCast, if_pos ⟨hk1, hk2⟩] at hg
    obtain ⟨c, hc, h1, h2, h3, h4⟩ := hmid k 0 hg
    have hmin : min (0 : Int) ((s.colorPalette.length : Int) - 1) = 0 := by omega
    rw [hmin, hc0] at hc
    simp only [Option.some.injEq] at hc
    subst hc
    simp only [Nat.zero_add] at h1 h2 h3 h4
    exact ⟨h1, h2, h3, h4⟩

/-- Witness of C11: toggling on from the 4 by 4 scenario (effect disabled)
returns. -/
theorem inputToggleEffect_spec_witness :
    ∃ cells,
      inputToggleEffect true scenarioA = some { scenarioA with
        effectEnable := !scenarioA.effectEnable,
        pixelBuffer := { scenarioA.pixelBuffer with cells := cells } } ∧
      cells.length = scenarioA.pixelBuffer.cells.length ∧
      (∀ i : Int, sliceGet cells i
        = if (scenarioA.screenHeight - 1) * scenarioA.screenWidth ≤ i ∧
              i < (scenarioA.screenHeight - 1) * scenarioA.screenWidth + scenarioA.screenWidth
          then some (if (!scenarioA.effectEnable) = true
            then (scenarioA.colorPalette.length : Int) - 1 else 0)
          else sliceGet scenarioA.pixelBuffer.cells i) ∧
      (scenarioA.effectEnable = true → (∀ v ∈ scenarioA.pixelBuffer.cells, 0 ≤ v) →
        4 * scenarioA.pixelBuffer.cells.length ≤ scenarioA.frame.length →
        ∃ out c0, applyPalette scenarioA.frame cells scenarioA.colorPalette = some out ∧
          sliceGet scenarioA.colorPalette 0 = some c0 ∧
          ∀ k : Nat, (scenarioA.screenHeight - 1) * scenarioA.screenWidth ≤ (k : Int) →
            (k : Int) < (scenarioA.screenHeight - 1) * scenarioA.screenWidth
              + scenarioA.screenWidth →
            out[4 * k]? = some c0.R ∧ out[4 * k + 1]? = some c0.G ∧
            out[4 * k + 2]? = some c0.B ∧ out[4 * k + 3]? = some c0.A) :=
  inputToggleEffect_spec scenarioA (by decide) (by decide) (by decide) (by decide) (by decide)

end Fire
